import Mathlib

set_option maxRecDepth 8000

/-!
Verification of the Arc-browser bookmark exporter (`main.py`) against its
natural-language specification.

The Python program is shallowly embedded: JSON values decoded by `json.loads`
become the inductive type `JSON`; Python's dynamically-typed operations
(`in`, subscription, `len`, `str`, `.get`, truthiness, iteration) become
total Lean functions returning `Except PyErr _` where the Python operation
can raise; the unbounded recursion of `recurse_into_children` is modelled
with an explicit fuel parameter (running out of fuel is the distinguished
error `PyErr.fuelOut`, which never occurs on well-founded input).
-/


/-- A JSON value as produced by Python's `json.loads`: `None`, `bool`, `int`
(numbers are modelled as integers; the input data carries no fractional
numbers that any claim depends on), `str`, `list`, `dict` (insertion-ordered
association list with string keys, as CPython dicts preserve order). -/
inductive JSON where
  | null
  | bool (b : Bool)
  | num (n : Int)
  | str (s : String)
  | arr (elts : List JSON)
  | obj (fields : List (String × JSON))

mutual

def jsonDecEq : (a b : JSON) → Decidable (a = b)
  | .null, .null => .isTrue rfl
  | .bool p, .bool q =>
    if hb : p = q then .isTrue (hb ▸ rfl) else .isFalse (fun hc => hb (by cases hc; rfl))
  | .num p, .num q =>
    if hn : p = q then .isTrue (hn ▸ rfl) else .isFalse (fun hc => hn (by cases hc; rfl))
  | .str p, .str q =>
    if hs : p = q then .isTrue (hs ▸ rfl) else .isFalse (fun hc => hs (by cases hc; rfl))
  | .arr ps, .arr qs =>
    match jsonDecEqL ps qs with
    | .isTrue ha => .isTrue (ha ▸ rfl)
    | .isFalse ha => .isFalse (fun hc => ha (by cases hc; rfl))
  | .obj ps, .obj qs =>
    match jsonDecEqO ps qs with
    | .isTrue ho => .isTrue (ho ▸ rfl)
    | .isFalse ho => .isFalse (fun hc => ho (by cases hc; rfl))
  | .null, .bool _ | .null, .num _ | .null, .str _ | .null, .arr _ | .null, .obj _
  | .bool _, .null | .bool _, .num _ | .bool _, .str _ | .bool _, .arr _ | .bool _, .obj _
  | .num _, .null | .num _, .bool _ | .num _, .str _ | .num _, .arr _ | .num _, .obj _
  | .str _, .null | .str _, .bool _ | .str _, .num _ | .str _, .arr _ | .str _, .obj _
  | .arr _, .null | .arr _, .bool _ | .arr _, .num _ | .arr _, .str _ | .arr _, .obj _
  | .obj _, .null | .obj _, .bool _ | .obj _, .num _ | .obj _, .str _ | .obj _, .arr _ =>
    .isFalse (fun hc => nomatch hc)

def jsonDecEqL : (a b : List JSON) → Decidable (a = b)
  | [], [] => .isTrue rfl
  | [], _ :: _ | _ :: _, [] => .isFalse (fun hc => nomatch hc)
  | p :: ps, q :: qs =>
    match jsonDecEq p q with
    | .isTrue hh =>
      match jsonDecEqL ps qs with
      | .isTrue ht => .isTrue (hh ▸ ht ▸ rfl)
      | .isFalse ht => .isFalse (fun hc => ht (by cases hc; rfl))
    | .isFalse hh => .isFalse (fun hc => hh (by cases hc; rfl))

def jsonDecEqO : (a b : List (String × JSON)) → Decidable (a = b)
  | [], [] => .isTrue rfl
  | [], _ :: _ | _ :: _, [] => .isFalse (fun hc => nomatch hc)
  | (ka, va) :: ps, (kb, vb) :: qs =>
    if hk : ka = kb then
      match jsonDecEq va vb with
      | .isTrue hh =>
        match jsonDecEqO ps qs with
        | .isTrue ht => .isTrue (hk ▸ hh ▸ ht ▸ rfl)
        | .isFalse ht => .isFalse (fun hc => ht (by cases hc; rfl))
      | .isFalse hh => .isFalse (fun hc => hh (by cases hc; rfl))
    else .isFalse (fun hc => hk (by cases hc; rfl))

end

instance : DecidableEq JSON := jsonDecEq

/-- Python exception kinds that the embedded code can raise.  `fuelOut` is
not a Python exception: it marks exhaustion of the instrumentation fuel of
the (in Python unbounded) recursion. -/
inductive PyErr where
  | keyError
  | typeError
  | indexError
  | attributeError
  | jsonDecodeError
  | fuelOut
deriving DecidableEq

instance {ε α : Type} [DecidableEq ε] [DecidableEq α] : DecidableEq (Except ε α) := fun a b =>
  match a, b with
  | .ok x, .ok y =>
    if h : x = y then isTrue (by rw [h]) else isFalse (by intro hc; cases hc; exact h rfl)
  | .error x, .error y =>
    if h : x = y then isTrue (by rw [h]) else isFalse (by intro hc; cases hc; exact h rfl)
  | .ok _, .error _ => isFalse (fun h => Except.noConfusion h)
  | .error _, .ok _ => isFalse (fun h => Except.noConfusion h)

/-- Python truthiness of a decoded JSON value (`bool(x)`). -/
def pyTruthy : JSON → Bool
  | .null => false
  | .bool b => b
  | .num n => n != 0
  | .str s => !s.isEmpty
  | .arr xs => !xs.isEmpty
  | .obj fs => !fs.isEmpty

mutual

/-- Python `str(x)` on a decoded JSON value (used by `str(containers[i + 1])`
and by f-string interpolation in the renderer). -/
def pyStr : JSON → String
  | .null => "None"
  | .bool true => "True"
  | .bool false => "False"
  | .num n => toString n
  | .str s => s
  | .arr xs => "[" ++ pyReprL xs ++ "]"
  | .obj fs => "\x7b" ++ pyReprO fs ++ "\x7d"

/-- Python `repr(x)` on a decoded JSON value (container elements are shown
with `repr`, so strings gain single quotes). -/
def pyRepr : JSON → String
  | .null => "None"
  | .bool true => "True"
  | .bool false => "False"
  | .num n => toString n
  | .str s => "'" ++ s ++ "'"
  | .arr xs => "[" ++ pyReprL xs ++ "]"
  | .obj fs => "\x7b" ++ pyReprO fs ++ "\x7d"

def pyReprL : List JSON → String
  | [] => ""
  | [x] => pyRepr x
  | x :: rest => pyRepr x ++ ", " ++ pyReprL rest

def pyReprO : List (String × JSON) → String
  | [] => ""
  | [(k, v)] => "'" ++ k ++ "': " ++ pyRepr v
  | (k, v) :: rest => "'" ++ k ++ "': " ++ pyRepr v ++ ", " ++ pyReprO rest

end

/-- Boolean substring test on character lists (`needle` occurs inside
`hay`), used for Python's `needle in hay` when `hay` is a `str`. -/
def infixOf (pat : List Char) : List Char → Bool
  | [] => pat.isEmpty
  | c :: rest => pat.isPrefixOf (c :: rest) || infixOf pat rest

def infixOfStr (pat s : String) : Bool := infixOf pat.data s.data

/-- Number of (possibly overlapping) occurrence positions of `pat` in the list. -/
def countSub (pat : List Char) : List Char → Nat
  | [] => 0
  | c :: rest => (if pat.isPrefixOf (c :: rest) then 1 else 0) + countSub pat rest

def countSubStr (pat s : String) : Nat := countSub pat.data s.data

/-- Python `key in x` for a string `key`: key-membership for a dict,
substring test for a str, element-membership for a list, and `TypeError`
for the non-container types. -/
def pyContainsB (key : String) : JSON → Except PyErr Bool
  | .obj fs => .ok (fs.any (fun p => p.1 == key))
  | .str s => .ok (infixOfStr key s)
  | .arr xs => .ok (xs.any (fun x => x = JSON.str key))
  | .null => .error .typeError
  | .bool _ => .error .typeError
  | .num _ => .error .typeError

/-- First value bound to `key` in an association list. -/
def objLookup (key : String) : List (String × JSON) → Option JSON
  | [] => none
  | (k, v) :: rest => if k = key then some v else objLookup key rest

/-- Python `x[key]` for a string `key`: dict lookup (`KeyError` when the key
is missing) and `TypeError` on every other type (strings and lists reject
string indices). -/
def pySubscript (v : JSON) (key : String) : Except PyErr JSON :=
  match v with
  | .obj fs =>
    match objLookup key fs with
    | some w => .ok w
    | none => .error .keyError
  | .null => .error .typeError
  | .bool _ => .error .typeError
  | .num _ => .error .typeError
  | .str _ => .error .typeError
  | .arr _ => .error .typeError

/-- Python `x.get(key, dflt)`: only dicts have `.get`; every other type
raises `AttributeError`. -/
def pyGet (v : JSON) (key : String) (dflt : JSON) : Except PyErr JSON :=
  match v with
  | .obj fs =>
    match objLookup key fs with
    | some w => .ok w
    | none => .ok dflt
  | .null => .error .attributeError
  | .bool _ => .error .attributeError
  | .num _ => .error .attributeError
  | .str _ => .error .attributeError
  | .arr _ => .error .attributeError

/-- Total dict lookup with default, for stating properties about values that
are known to be dicts (`objGetD (JSON.obj fs) k d` is what `pyGet` returns). -/
def objGetD (v : JSON) (key : String) (dflt : JSON) : JSON :=
  match v with
  | .obj fs =>
    match objLookup key fs with
    | some w => w
    | none => dflt
  | .null => dflt
  | .bool _ => dflt
  | .num _ => dflt
  | .str _ => dflt
  | .arr _ => dflt

/-- Python `len(x)`: defined for str, list and dict, `TypeError` otherwise. -/
def pyLen : JSON → Except PyErr Nat
  | .str s => .ok s.length
  | .arr xs => .ok xs.length
  | .obj fs => .ok fs.length
  | .null => .error .typeError
  | .bool _ => .error .typeError
  | .num _ => .error .typeError

/-- Python `x[i]` for a non-negative integer index `i`: list indexing with
`IndexError` out of range, one-character strings for str, `KeyError` for a
dict without integer keys (decoded JSON dicts only have string keys), and
`TypeError` otherwise. -/
def pyIndex (v : JSON) (i : Nat) : Except PyErr JSON :=
  match v with
  | .arr xs =>
    match xs.get? i with
    | some w => .ok w
    | none => .error .indexError
  | .str s =>
    match s.data.get? i with
    | some c => .ok (.str (String.mk [c]))
    | none => .error .indexError
  | .obj _ => .error .keyError
  | .null => .error .typeError
  | .bool _ => .error .typeError
  | .num _ => .error .typeError

/-- Python `for x in v`: the element sequence of a list, the characters of a
str, the keys of a dict; `TypeError` otherwise. -/
def pyIter : JSON → Except PyErr (List JSON)
  | .arr xs => .ok xs
  | .str s => .ok (s.data.map (fun c => JSON.str (String.mk [c])))
  | .obj fs => .ok (fs.map (fun p => JSON.str p.1))
  | .null => .error .typeError
  | .bool _ => .error .typeError
  | .num _ => .error .typeError

/-- CPython dict assignment `d[k] = v` on an insertion-ordered association
list with string keys: overwrite in place when the key exists, append
otherwise. -/
def dictSet (d : List (String × JSON)) (k : String) (v : JSON) : List (String × JSON) :=
  match d with
  | [] => [(k, v)]
  | (k', v') :: rest => if k' = k then (k', v) :: rest else (k', v') :: dictSet rest k v

/-- CPython dict assignment for dicts keyed by arbitrary (hashable) decoded
values, as in the `item_dict` comprehension. -/
def dictSetJ (d : List (JSON × JSON)) (k : JSON) (v : JSON) : List (JSON × JSON) :=
  match d with
  | [] => [(k, v)]
  | (k', v') :: rest => if k' = k then (k', v) :: rest else (k', v') :: dictSetJ rest k v

/-! ### Repair Pass (`fix_malformed_urls`) -/

/-- Replace every (non-overlapping, left-to-right) occurrence of `pat` by
`rep`, continuing after the replacement — the behaviour of `re.sub` with a
pattern that matches a fixed literal string.  Fuel-indexed so that the
definition is structural; `fuel = s.length` always suffices. -/
def replaceAllAux (pat rep : List Char) : Nat → List Char → List Char
  | 0, s => s
  | _ + 1, [] => []
  | fuel + 1, c :: rest =>
    if !pat.isEmpty && pat.isPrefixOf (c :: rest) then
      rep ++ replaceAllAux pat rep fuel (List.drop pat.length (c :: rest))
    else
      c :: replaceAllAux pat rep fuel rest

def replaceAll (pat rep s : List Char) : List Char := replaceAllAux pat rep s.length s

def replaceAllStr (pat rep s : String) : String :=
  String.mk (replaceAll pat.data rep.data s.data)

/-- The Repair Pass of `main.py`: the five literal substitutions performed by
`re.sub`, in source order (each regex matches a fixed literal string, e.g.
the regex written `file:\\\/\\\/\\\/` matches the nine characters
`file:\/\/\/`). -/
def fix_malformed_urls (json_content : String) : String :=
  let s1 := replaceAllStr "file:\\/\\/\\/" "file:///" json_content
  let s2 := replaceAllStr "https:\\/\\/" "https://" s1
  let s3 := replaceAllStr "http:\\/\\/" "http://" s2
  let s4 := replaceAllStr "C:\\" "C:/" s3
  let s5 := replaceAllStr "D:\\" "D:/" s4
  s5

/-! ### JSON parsing (the behaviour of Python's `json.loads` on the subset
of JSON this program's data uses) -/

/-- JSON string-literal escape characters (the `\uXXXX` form is not needed by
any claim and is treated as a parse failure of this subset parser). -/
def escChar (c : Char) : Option Char :=
  if c = '"' ∨ c = '\\' ∨ c = '/' then some c
  else if c = 'n' then some '\n'
  else if c = 't' then some '\t'
  else if c = 'r' then some '\r'
  else if c = 'b' then some (Char.ofNat 8)
  else if c = 'f' then some (Char.ofNat 12)
  else none

/-- Parse the body of a JSON string literal (the opening quote already
consumed), returning the decoded characters and the remaining input. -/
def parseStrLit : List Char → Option (List Char × List Char)
  | [] => none
  | '"' :: rest => some ([], rest)
  | '\\' :: e :: rest =>
    match escChar e with
    | none => none
    | some c =>
      match parseStrLit rest with
      | none => none
      | some (cs, r) => some (c :: cs, r)
  | '\\' :: [] => none
  | c :: rest =>
    match parseStrLit rest with
    | none => none
    | some (cs, r) => some (c :: cs, r)

def isWs (c : Char) : Bool := decide (c = ' ' ∨ c = '\n' ∨ c = '\t' ∨ c = '\r')

def skipWs : List Char → List Char
  | [] => []
  | c :: rest => if isWs c then skipWs rest else c :: rest

def takeDigits : List Char → (List Char × List Char)
  | [] => ([], [])
  | c :: rest =>
    if c.isDigit then
      let p := takeDigits rest
      (c :: p.1, p.2)
    else ([], c :: rest)

def digitsToNat (ds : List Char) : Nat :=
  ds.foldl (fun a c => a * 10 + (c.toNat - 48)) 0

/-- Parser mode: a plain value, the elements of an array after `[`, or the
members of an object after the opening brace (later duplicate keys
overwrite earlier ones, as in `json.loads`). -/
inductive PMode where
  | val
  | arrElems (acc : List JSON)
  | objElems (acc : List (String × JSON))

def parseP : Nat → PMode → List Char → Option (JSON × List Char)
  | 0, _, _ => none
  | fuel + 1, .val, s =>
    match skipWs s with
    | [] => none
    | '"' :: r =>
      match parseStrLit r with
      | some (cs, rest) => some (.str (String.mk cs), rest)
      | none => none
    | '[' :: r =>
      match skipWs r with
      | ']' :: rest => some (.arr [], rest)
      | r2 => parseP fuel (.arrElems []) r2
    | '\x7b' :: r =>
      match skipWs r with
      | '\x7d' :: rest => some (.obj [], rest)
      | r2 => parseP fuel (.objElems []) r2
    | 't' :: 'r' :: 'u' :: 'e' :: rest => some (.bool true, rest)
    | 'f' :: 'a' :: 'l' :: 's' :: 'e' :: rest => some (.bool false, rest)
    | 'n' :: 'u' :: 'l' :: 'l' :: rest => some (.null, rest)
    | '-' :: r =>
      match takeDigits r with
      | ([], _) => none
      | (ds, rest) => some (.num (-(digitsToNat ds : Int)), rest)
    | c :: r =>
      if c.isDigit then
        match takeDigits (c :: r) with
        | (ds, rest) => some (.num (digitsToNat ds : Int), rest)
      else none
  | fuel + 1, .arrElems acc, s =>
    match parseP fuel .val s with
    | none => none
    | some (v, rest) =>
      match skipWs rest with
      | ',' :: r2 => parseP fuel (.arrElems (acc ++ [v])) r2
      | ']' :: r2 => some (.arr (acc ++ [v]), r2)
      | _ => none
  | fuel + 1, .objElems acc, s =>
    match skipWs s with
    | '"' :: r =>
      match parseStrLit r with
      | none => none
      | some (kcs, r2) =>
        match skipWs r2 with
        | ':' :: r3 =>
          match parseP fuel .val r3 with
          | none => none
          | some (v, r4) =>
            match skipWs r4 with
            | ',' :: r5 => parseP fuel (.objElems (dictSet acc (String.mk kcs) v)) r5
            | '\x7d' :: r5 => some (.obj (dictSet acc (String.mk kcs) v), r5)
            | _ => none
        | _ => none
    | _ => none

/-- The behaviour of `json.loads` on the embedded JSON subset: parse one
value, require only whitespace to remain, raise `json.JSONDecodeError`
otherwise. -/
def json_loads (s : String) : Except PyErr JSON :=
  match parseP (s.length + 1) .val s.data with
  | some (v, rest) => if (skipWs rest).isEmpty then .ok v else .error .jsonDecodeError
  | none => .error .jsonDecodeError

/-- `read_json` of `main.py`, restricted to its core contract: the raw file
text is repaired by `fix_malformed_urls` and then parsed; a parse failure
propagates to the caller as a fatal error with no partial result.  (Reading
the file from disk and the `FileNotFoundError` path are external I/O and out
of the embedded core.) -/
def read_json (content : String) : Except PyErr JSON :=
  json_loads (fix_malformed_urls content)

/-! ### Space Resolver (`get_spaces`) -/

/-- The `spaces_names` dictionary: container-id (already stringified) to
space title, split into the pinned and unpinned groups. -/
structure SpacesNames where
  pinned : List (String × JSON)
  unpinned : List (String × JSON)
deriving DecidableEq

/-- Full observable state of `get_spaces`: the returned `spaces_names`
mapping plus the reported `spaces_count` and the internal untitled-space
counter `n`. -/
structure GetSpacesRes where
  names : SpacesNames
  spaces_count : Nat
  n : Nat
deriving DecidableEq

/-- The inner marker scan of `get_spaces`: `for i in range(len(containers))`,
recording `str(containers[i + 1])` under the current title whenever
`containers[i]` is a dict bearing a `pinned` (or, failing that, `unpinned`)
key.  The index `i + 1` is **not** range-checked in the source; `pyIndex`
raises `IndexError` exactly where Python would.  `rem` counts the loop
iterations still to run (initially `len(containers)`). -/
def get_spaces_markers (containers : JSON) (title : JSON) : Nat → Nat → SpacesNames → Except PyErr SpacesNames
  | _, 0, names => .ok names
  | i, rem + 1, names =>
    match pyIndex containers i with
    | .error e => .error e
    | .ok ci =>
      match ci with
      | .obj fs =>
        if fs.any (fun p => p.1 == "pinned") then
          match pyIndex containers (i + 1) with
          | .error e => .error e
          | .ok nxt =>
            get_spaces_markers containers title (i + 1) rem
              ⟨dictSet names.pinned (pyStr nxt) title, names.unpinned⟩
        else if fs.any (fun p => p.1 == "unpinned") then
          match pyIndex containers (i + 1) with
          | .error e => .error e
          | .ok nxt =>
            get_spaces_markers containers title (i + 1) rem
              ⟨names.pinned, dictSet names.unpinned (pyStr nxt) title⟩
        else get_spaces_markers containers title (i + 1) rem names
      | _ => get_spaces_markers containers title (i + 1) rem names

/-- One iteration of the `for space in spaces` loop of `get_spaces`: the
title test (`"title" in space`) and title synthesis run on every entry, the
marker scan and the `spaces_count` increment only on dict entries. -/
def get_spaces_step (st : GetSpacesRes) (space : JSON) : Except PyErr GetSpacesRes :=
  match pyContainsB "title" space with
  | .error e => .error e
  | .ok hasTitle =>
    match (if hasTitle then pySubscript space "title"
           else .ok (JSON.str ("Space " ++ toString st.n))) with
    | .error e => .error e
    | .ok title =>
      let n' := if hasTitle then st.n else st.n + 1
      match space with
      | .obj _ =>
        match pySubscript space "newContainerIDs" with
        | .error e => .error e
        | .ok containers =>
          match pyLen containers with
          | .error e => .error e
          | .ok clen =>
            match get_spaces_markers containers title 0 clen st.names with
            | .error e => .error e
            | .ok names' => .ok ⟨names', st.spaces_count + 1, n'⟩
      | _ => .ok ⟨st.names, st.spaces_count, n'⟩

def get_spaces_list : GetSpacesRes → List JSON → Except PyErr GetSpacesRes
  | st, [] => .ok st
  | st, space :: rest =>
    match get_spaces_step st space with
    | .error e => .error e
    | .ok st' => get_spaces_list st' rest

/-- `get_spaces` of `main.py` on the (already iterated) spaces sequence. -/
def get_spaces (spaces : List JSON) : Except PyErr GetSpacesRes :=
  get_spaces_list ⟨⟨[], []⟩, 0, 1⟩ spaces

/-! ### Hierarchy Builder (`convert_to_bookmarks` / `recurse_into_children`) -/

/-- A node of the built bookmark tree: the dicts
`\x7b"title": …, "type": "folder", "children": …\x7d` and
`\x7b"title": …, "type": "bookmark", "url": …\x7d` that
`recurse_into_children` appends. -/
inductive Node where
  | folder (title : JSON) (children : List Node)
  | bookmark (title url : JSON)

mutual

def nodeDecEq : (a b : Node) → Decidable (a = b)
  | .folder ta ca, .folder tb cb =>
    if ht : ta = tb then
      match nodeDecEqL ca cb with
      | .isTrue hl => .isTrue (ht ▸ hl ▸ rfl)
      | .isFalse hl => .isFalse (fun hc => hl (by cases hc; rfl))
    else .isFalse (fun hc => ht (by cases hc; rfl))
  | .bookmark ta ua, .bookmark tb ub =>
    if ht : ta = tb then
      if hu : ua = ub then .isTrue (ht ▸ hu ▸ rfl)
      else .isFalse (fun hc => hu (by cases hc; rfl))
    else .isFalse (fun hc => ht (by cases hc; rfl))
  | .folder _ _, .bookmark _ _ | .bookmark _ _, .folder _ _ =>
    .isFalse (fun hc => nomatch hc)

def nodeDecEqL : (a b : List Node) → Decidable (a = b)
  | [], [] => .isTrue rfl
  | [], _ :: _ | _ :: _, [] => .isFalse (fun hc => nomatch hc)
  | p :: ps, q :: qs =>
    match nodeDecEq p q with
    | .isTrue hh =>
      match nodeDecEqL ps qs with
      | .isTrue ht => .isTrue (hh ▸ ht ▸ rfl)
      | .isFalse ht => .isFalse (fun hc => ht (by cases hc; rfl))
    | .isFalse hh => .isFalse (fun hc => hh (by cases hc; rfl))

end

instance : DecidableEq Node := nodeDecEq

/-- The classification test `"data" in item and "tab" in item["data"]`
(evaluated left to right with Python's short-circuit `and`). -/
def bookmarkTest (item : JSON) : Except PyErr Bool :=
  match pyContainsB "data" item with
  | .error e => .error e
  | .ok false => .ok false
  | .ok true =>
    match pySubscript item "data" with
    | .error e => .error e
    | .ok d => pyContainsB "tab" d

/-- The expression `item["data"]["tab"]`. -/
def tabOf (item : JSON) : Except PyErr JSON :=
  match pySubscript item "data" with
  | .error e => .error e
  | .ok d => pySubscript d "tab"

/-- The bookmark title expression
`item.get("title", None) or item["data"]["tab"].get("savedTitle", "")` after
`item.get("title", None)` has evaluated to `t0`: Python's `or` short-
circuits, so the saved title is fetched only when `t0` is falsy. -/
def bmTitle (item t0 : JSON) : Except PyErr JSON :=
  if pyTruthy t0 then .ok t0 else
    match tabOf item with
    | .error e => .error e
    | .ok tb => pyGet tb "savedTitle" (JSON.str "")

/-- The bookmark dict built for an item classified as a bookmark:
`title` is `item.get("title", None) or item["data"]["tab"].get("savedTitle", "")`,
`url` is `item["data"]["tab"].get("savedURL", "")` (evaluated in this
order, as in the source dict literal). -/
def bmNode (item : JSON) : Except PyErr Node :=
  match pyGet item "title" JSON.null with
  | .error e => .error e
  | .ok t0 =>
    match bmTitle item t0 with
    | .error e => .error e
    | .ok title =>
      match tabOf item with
      | .error e => .error e
      | .ok tb =>
        match pyGet tb "savedURL" (JSON.str "") with
        | .error e => .error e
        | .ok url => .ok (.bookmark title url)

/-- The comprehension
`item_dict = \x7bitem["id"]: item for item in items if isinstance(item, dict)\x7d`:
dict items are keyed by their `id` value (a missing `id` raises `KeyError`,
an unhashable — list or dict — `id` raises `TypeError`), later duplicate
ids overwrite earlier values in place. -/
def itemDictAux (acc : List (JSON × JSON)) : List JSON → Except PyErr (List (JSON × JSON))
  | [] => .ok acc
  | item :: rest =>
    match item with
    | .obj _ =>
      match pySubscript item "id" with
      | .error e => .error e
      | .ok k =>
        match k with
        | .arr _ => .error .typeError
        | .obj _ => .error .typeError
        | _ => itemDictAux (dictSetJ acc k item) rest
    | _ => itemDictAux acc rest

def itemDictBuild (items : List JSON) : Except PyErr (List (JSON × JSON)) :=
  itemDictAux [] items

/-- The body of `recurse_into_children(parent_id)`: iterate `item_dict` in
insertion order; an item whose `parentID` equals `parent_id` becomes a
bookmark node (when `"data" in item and "tab" in item["data"]`), or a folder
node whose children are the recursion on the item's own id (when it has a
`title`), or is dropped.  The fourth argument is the tail of `item_dict`
still to scan.  Fuel is consumed on every step (one unit per scanned entry
and per recursive descent) so that the definition is structural; the Python
original recurses unboundedly, which is modelled by `PyErr.fuelOut`:
a run of the Python program that terminates normally is exactly a run of
this function with sufficiently large fuel. -/
def recurseGo (item_dict : List (JSON × JSON)) : Nat → JSON → List (JSON × JSON) → Except PyErr (List Node)
  | 0, _, _ => .error .fuelOut
  | _ + 1, _, [] => .ok []
  | fuel + 1, parent_id, (k, it) :: rest =>
    match pyGet it "parentID" JSON.null with
    | .error e => .error e
    | .ok pv =>
      if pv = parent_id then
        match bookmarkTest it with
        | .error e => .error e
        | .ok true =>
          match bmNode it with
          | .error e => .error e
          | .ok nd =>
            match recurseGo item_dict fuel parent_id rest with
            | .error e => .error e
            | .ok rest' => .ok (nd :: rest')
        | .ok false =>
          match pyContainsB "title" it with
          | .error e => .error e
          | .ok true =>
            match pySubscript it "title" with
            | .error e => .error e
            | .ok t =>
              match recurseGo item_dict fuel k item_dict with
              | .error e => .error e
              | .ok cs =>
                match recurseGo item_dict fuel parent_id rest with
                | .error e => .error e
                | .ok rest' => .ok (.folder t cs :: rest')
          | .ok false => recurseGo item_dict fuel parent_id rest
      else recurseGo item_dict fuel parent_id rest

/-- `recurse_into_children` of `main.py` (fuel-instrumented, over the
pre-built `item_dict`). -/
def recurse_into_children (item_dict : List (JSON × JSON)) (fuel : Nat) (parent_id : JSON) : Except PyErr (List Node) :=
  recurseGo item_dict fuel parent_id item_dict

/-- The `for space_id, space_name in spaces["pinned"].items()` loop: one root
folder per pinned entry, in mapping order, children from
`recurse_into_children(space_id)`. -/
def convert_roots (item_dict : List (JSON × JSON)) (fuel : Nat) : List (String × JSON) → Except PyErr (List Node)
  | [] => .ok []
  | (space_id, space_name) :: rest =>
    match recurse_into_children item_dict fuel (JSON.str space_id) with
    | .error e => .error e
    | .ok cs =>
      match convert_roots item_dict fuel rest with
      | .error e => .error e
      | .ok rest' => .ok (.folder space_name cs :: rest')

/-- `convert_to_bookmarks` of `main.py`: build `item_dict`, then one root
folder per pinned space.  The returned list is the `bookmarks["bookmarks"]`
list. -/
def convert_to_bookmarks (fuel : Nat) (spaces : SpacesNames) (items : List JSON) : Except PyErr (List Node) :=
  match itemDictBuild items with
  | .error e => .error e
  | .ok item_dict => convert_roots item_dict fuel spaces.pinned

mutual

/-- The final value of the `bookmarks_count` counter: one increment per
bookmark dict appended anywhere in the tree. -/
def bookmarksCount : Node → Nat
  | .folder _ cs => bookmarksCountL cs
  | .bookmark _ _ => 1

def bookmarksCountL : List Node → Nat
  | [] => 0
  | n :: rest => bookmarksCount n + bookmarksCountL rest

end

/-! ### HTML Renderer (`convert_bookmarks_to_html` / `traverse_dict`) -/

/-- `"\t" * level`. -/
def tabs (level : Nat) : String := String.mk (List.replicate level '\t')

/-- The fixed document preamble emitted before the root `<DL><p>` list. -/
def bookmarksPreamble : String :=
  "<!DOCTYPE NETSCAPE-Bookmark-file-1>\n<META HTTP-EQUIV=\"Content-Type\" CONTENT=\"text/html; charset=UTF-8\">\n<TITLE>Bookmarks</TITLE>\n<H1>Bookmarks</H1>\n<DL><p>"

mutual

/-- `traverse_dict(d, html_str, level)` of `main.py`: fold the node list
into the accumulated string. -/
def traverse_dict : List Node → String → Nat → String
  | [], html_str, _ => html_str
  | n :: rest, html_str, level => traverse_dict rest (traverseItem n html_str level) level

/-- One loop iteration of `traverse_dict` on a single node (f-string
interpolation is Python `str`, i.e. `pyStr`). -/
def traverseItem : Node → String → Nat → String
  | .folder title children, html_str, level =>
    let indent := tabs level
    let h1 := html_str ++ "\n" ++ indent ++ "<DT><H3>" ++ pyStr title ++ "</H3>"
    let h2 := h1 ++ "\n" ++ indent ++ "<DL><p>"
    let h3 := traverse_dict children h2 (level + 1)
    h3 ++ "\n" ++ indent ++ "</DL><p>"
  | .bookmark title url, html_str, level =>
    html_str ++ "\n" ++ tabs level ++ "<DT><A HREF=\"" ++ pyStr url ++ "\">" ++ pyStr title ++ "</A>"

end

/-- `convert_bookmarks_to_html` of `main.py`: preamble, rendered node list at
level 1, closing `</DL><p>`. -/
def convert_bookmarks_to_html (bookmarks : List Node) : String :=
  traverse_dict bookmarks bookmarksPreamble 1 ++ "\n</DL><p>"

/-! ### Container selection and the full pipeline (`convert_json_to_html`) -/

/-- The container-selection loop of `convert_json_to_html`: running state is
`(max_items, target_container)`, updated to `(len(c["items"]), c)` whenever
a container `c` has both a `spaces` and an `items` key and strictly more
items than the running maximum (which starts at `0`). -/
def select_container : (Nat × Option JSON) → List JSON → Except PyErr (Nat × Option JSON)
  | st, [] => .ok st
  | st, c :: rest =>
    match pyContainsB "spaces" c with
    | .error e => .error e
    | .ok false => select_container st rest
    | .ok true =>
      match pyContainsB "items" c with
      | .error e => .error e
      | .ok false => select_container st rest
      | .ok true =>
        match pySubscript c "items" with
        | .error e => .error e
        | .ok its =>
          match pyLen its with
          | .error e => .error e
          | .ok item_count =>
            if st.1 < item_count then select_container (item_count, some c) rest
            else select_container st rest

/-- The per-container outcome of the selection test, for stating properties:
`none` when the container lacks `spaces` or `items`, `some ℓ` when it has
both and `len(c["items"]) = ℓ`. -/
def qualLen (c : JSON) : Except PyErr (Option Nat) :=
  match pyContainsB "spaces" c with
  | .error e => .error e
  | .ok false => .ok none
  | .ok true =>
    match pyContainsB "items" c with
    | .error e => .error e
    | .ok false => .ok none
    | .ok true =>
      match pySubscript c "items" with
      | .error e => .error e
      | .ok its =>
        match pyLen its with
        | .error e => .error e
        | .ok item_count => .ok (some item_count)

/-- `convert_json_to_html` of `main.py`: pick the container, resolve spaces,
build the tree, render.  An empty string is returned when no container has
both keys (Python's `if not target_container`; a selected container is a
dict with at least two keys, hence always truthy). -/
def convert_json_to_html (fuel : Nat) (json_data : JSON) : Except PyErr String :=
  match pySubscript json_data "sidebar" with
  | .error e => .error e
  | .ok sb =>
    match pySubscript sb "containers" with
    | .error e => .error e
    | .ok cv =>
      match pyIter cv with
      | .error e => .error e
      | .ok containers =>
        match select_container (0, none) containers with
        | .error e => .error e
        | .ok (_, none) => .ok ""
        | .ok (_, some target) =>
          match pySubscript target "spaces" with
          | .error e => .error e
          | .ok spacesV =>
            match pyIter spacesV with
            | .error e => .error e
            | .ok spacesL =>
              match get_spaces spacesL with
              | .error e => .error e
              | .ok sp =>
                match pySubscript target "items" with
                | .error e => .error e
                | .ok itemsV =>
                  match pyIter itemsV with
                  | .error e => .error e
                  | .ok items =>
                    match convert_to_bookmarks fuel sp.names items with
                    | .error e => .error e
                    | .ok bks => .ok (convert_bookmarks_to_html bks)

/-! ## Auxiliary predicates used by the claim statements -/

def isObjB : JSON → Bool
  | .obj _ => true
  | _ => false

def isStrB : JSON → Bool
  | .str _ => true
  | _ => false

mutual

/-- Checker for the spec invariant "every BookmarkNode's title is a non-null
string". -/
def titlesAreStrings : Node → Bool
  | .folder t cs => isStrB t && titlesAreStringsL cs
  | .bookmark t _ => isStrB t

def titlesAreStringsL : List Node → Bool
  | [] => true
  | n :: rest => titlesAreStrings n && titlesAreStringsL rest

end

/-! ## C6 — end-to-end example -/

/-- The input document of the end-to-end testable property: one container
whose `spaces` and `items` are exactly the lists given in the spec. -/
def endToEndDoc : JSON :=
  JSON.obj [("sidebar", JSON.obj [("containers", JSON.arr [
    JSON.obj [
      ("spaces", JSON.arr [JSON.obj [("title", JSON.str "Work"),
        ("newContainerIDs", JSON.arr [JSON.obj [("pinned", JSON.bool true)], JSON.str "c1"])]]),
      ("items", JSON.arr [
        JSON.obj [("id", JSON.str "c1"), ("parentID", JSON.null), ("title", JSON.str "Work")],
        JSON.obj [("id", JSON.str "b1"), ("parentID", JSON.str "c1"),
          ("data", JSON.obj [("tab", JSON.obj [("savedTitle", JSON.str "Example"),
            ("savedURL", JSON.str "https://example.com")])])]])]])])]

/-- The document the pipeline produces for `endToEndDoc`. -/
def endToEndHtml : String :=
  "<!DOCTYPE NETSCAPE-Bookmark-file-1>\n<META HTTP-EQUIV=\"Content-Type\" CONTENT=\"text/html; charset=UTF-8\">\n<TITLE>Bookmarks</TITLE>\n<H1>Bookmarks</H1>\n<DL><p>\n\t<DT><H3>Work</H3>\n\t<DL><p>\n\t\t<DT><A HREF=\"https://example.com\">Example</A>\n\t</DL><p>\n</DL><p>"

/-! ## C9 — termination of the recursive descent -/

/-- A rank function strictly decreasing from each item's `parentID` value to
the item's own key — the standard witness that the `parentID` relation of
the flat item list is acyclic (well-founded). -/
def RankedParents (d : List (JSON × JSON)) (r : JSON → Nat) : Prop :=
  ∀ k it, (k, it) ∈ d → r k < r (objGetD it "parentID" JSON.null)

/-- A two-item cycle: each item is the other's parent, both classify as
folders. -/
def cycItemA : JSON :=
  JSON.obj [("id", JSON.str "a"), ("parentID", JSON.str "b"), ("title", JSON.str "A")]

def cycItemB : JSON :=
  JSON.obj [("id", JSON.str "b"), ("parentID", JSON.str "a"), ("title", JSON.str "B")]

def cycItemDict : List (JSON × JSON) :=
  [(JSON.str "a", cycItemA), (JSON.str "b", cycItemB)]

/-- Whenever the item's `title` field is present it holds a string. -/
def titleOk1 : JSON → Bool
  | .obj fs =>
    (match objLookup "title" fs with
     | some t => isStrB t
     | none => true)
  | .null => true
  | .bool _ => true
  | .num _ => true
  | .str _ => true
  | .arr _ => true

/-- Whenever the item's `data.tab.savedTitle` field is present it holds a
string. -/
def titleOk2 (item : JSON) : Bool :=
  match tabOf item with
  | .ok (JSON.obj fs2) =>
    (match objLookup "savedTitle" fs2 with
     | some st => isStrB st
     | none => true)
  | .ok JSON.null => true
  | .ok (.bool _) => true
  | .ok (.num _) => true
  | .ok (.str _) => true
  | .ok (.arr _) => true
  | .error _ => true

/-- The hypothesis under which the title invariant actually holds: whenever
the item's `title` field is present it holds a string, and whenever its
`data.tab.savedTitle` field is present it holds a string. -/
def titleFieldOkB (item : JSON) : Bool := titleOk1 item && titleOk2 item

/-! ## C1 — round-trip multiplicity of bookmark anchors -/

/-- The item's `parentID` value (`None` when absent), for items known to be
dicts. -/
def parentVal (it : JSON) : JSON := objGetD it "parentID" JSON.null

/-- Classification as a folder: `"data" in item and "tab" in item["data"]`
is false and `"title" in item` is true (both without raising). -/
def isFolderB (it : JSON) : Bool :=
  decide (bookmarkTest it = .ok false) && decide (pyContainsB "title" it = .ok true)

/-- The unique `item_dict` entry whose key is `v` and which classifies as a
folder, if any. -/
def findFolderEntry (d : List (JSON × JSON)) (v : JSON) : Option (JSON × JSON) :=
  d.find? (fun p => decide (p.1 = v) && isFolderB p.2)

/-- The ancestor chain of a value `v`: follow the folder entry keyed by the
current value to its `parentID`, while fuel lasts. -/
def chainList (d : List (JSON × JSON)) : Nat → JSON → List JSON
  | 0, v => [v]
  | fuel + 1, v =>
    v :: (match findFolderEntry d v with
          | some p => chainList d fuel (parentVal p.2)
          | none => [])

/-- The terminal element of the ancestor chain. -/
def chainLast (d : List (JSON × JSON)) : Nat → JSON → JSON
  | 0, v => v
  | fuel + 1, v =>
    match findFolderEntry d v with
    | some p => chainLast d fuel (parentVal p.2)
    | none => v

mutual

/-- Number of bookmark nodes with the given title and url in a tree. -/
def countTU (t u : JSON) : Node → Nat
  | .folder _ cs => countTUL t u cs
  | .bookmark t' u' => if t' = t ∧ u' = u then 1 else 0

def countTUL (t u : JSON) : List Node → Nat
  | [] => 0
  | n :: rest => countTU t u n + countTUL t u rest

end

/-- The exact anchor text `traverse_dict` emits for a bookmark node with
title `t` and url `u`. -/
def anchorStr (t u : JSON) : String :=
  "<DT><A HREF=\"" ++ pyStr u ++ "\">" ++ pyStr t ++ "</A>"

/-- The substring-occurrence relation used to state that an anchor appears
somewhere in the rendered document. -/
def occursIn (needle hay : String) : Prop :=
  ∃ pre post : List Char, hay.data = pre ++ needle.data ++ post

def rtItemF1 : JSON :=
  JSON.obj [("id", JSON.str "f1"), ("parentID", JSON.str "c1"), ("title", JSON.str "Folder")]

def rtItemB1 : JSON :=
  JSON.obj [("id", JSON.str "b1"), ("parentID", JSON.str "f1"),
    ("data", JSON.obj [("tab", JSON.obj [("savedTitle", JSON.str "T"),
      ("savedURL", JSON.str "https://e.com")])])]

def rtItems : List JSON := [rtItemF1, rtItemB1]

def rtSpaces : SpacesNames := ⟨[("c1", JSON.str "Work")], []⟩

def rtDict : List (JSON × JSON) := [(JSON.str "f1", rtItemF1), (JSON.str "b1", rtItemB1)]

def rtRank : JSON → Nat := fun v =>
  if v = JSON.str "b1" then 0 else if v = JSON.str "f1" then 1 else 2

def rtBks : List Node :=
  [Node.folder (JSON.str "Work")
    [Node.folder (JSON.str "Folder")
      [Node.bookmark (JSON.str "T") (JSON.str "https://e.com")]]]

def rtCexOrphan : JSON :=
  JSON.obj [("id", JSON.str "b2"), ("parentID", JSON.str "zzz"),
    ("data", JSON.obj [("tab", JSON.obj [("savedTitle", JSON.str "Gone"),
      ("savedURL", JSON.str "https://gone.com")])])]

def rtCexDoc : JSON :=
  JSON.obj [("sidebar", JSON.obj [("containers", JSON.arr [
    JSON.obj [
      ("spaces", JSON.arr [JSON.obj [("title", JSON.str "Work"),
        ("newContainerIDs", JSON.arr [JSON.obj [("pinned", JSON.bool true)], JSON.str "c1"])]]),
      ("items", JSON.arr [
        JSON.obj [("id", JSON.str "c1"), ("parentID", JSON.null), ("title", JSON.str "Work")],
        rtCexOrphan])]])])]

def rtCexCount : Except PyErr Nat :=
  match convert_json_to_html 10 rtCexDoc with
  | .error e => .error e
  | .ok html => .ok (countSubStr (anchorStr (JSON.str "Gone") (JSON.str "https://gone.com")) html)

/-! ## Theorems -/

/-! ## C2 — marker at the final position of `newContainerIDs` -/

/-- C2 states that the access to position `i + 1` in `get_spaces` is guarded
and a trailing marker is skipped without crash.  The source has no guard:
`spaces_names["pinned"][str(containers[i + 1])] = title` indexes past the
end of the list, so a space whose `newContainerIDs` ends with a `pinned`
(or `unpinned`) marker makes `get_spaces` raise `IndexError`.  This theorem
evaluates the embedded code at exactly that failing input. -/
theorem get_spaces_trailing_marker_indexError :
    get_spaces [JSON.obj [("title", JSON.str "A"),
      ("newContainerIDs", JSON.arr [JSON.obj [("pinned", JSON.bool true)]])]] =
      .error .indexError ∧
    get_spaces [JSON.obj [("title", JSON.str "A"),
      ("newContainerIDs", JSON.arr [JSON.obj [("unpinned", JSON.bool true)]])]] =
      .error .indexError := by
  decide

/-! ## C3 — non-dict entries of the `spaces` sequence -/

/-- C3 (counterexample): the claim says a non-dict space entry is ignored
entirely — no synthesized title, no advance of the untitled-space counter,
no crash.  In the source the title test and synthesis run *before* the
`isinstance(space, dict)` check, so the string entry `"x"` (which does not
contain `"title"`) advances the counter: the following untitled dict space
is named `"Space 2"`, not `"Space 1"`, and the final counter is 3 — while
an `int` entry crashes the title test with `TypeError`. -/
theorem get_spaces_non_dict_counterexample :
    get_spaces [JSON.str "x",
        JSON.obj [("newContainerIDs",
          JSON.arr [JSON.obj [("pinned", JSON.bool true)], JSON.str "c"])]] =
      .ok ⟨⟨[("c", JSON.str "Space 2")], []⟩, 1, 3⟩ ∧
    get_spaces [JSON.num 5] = .error .typeError := by
  decide

/-- C3 (amended): a non-dict space entry contributes no pinned or unpinned
mapping entry and is not counted in `spaces_count`, but it is not ignored
entirely: either the step completes with the untitled-space counter `n`
advanced by one (the entry supported the `"title" in space` test and it
found nothing), or the step raises (a `TypeError` — either the membership
test is unsupported, as for `None`/`bool`/`int`, or the title subscript on
a non-dict fails). -/
theorem get_spaces_step_non_dict_behaviour (st : GetSpacesRes) (s : JSON)
    (h : isObjB s = false) :
    (get_spaces_step st s = .ok ⟨st.names, st.spaces_count, st.n + 1⟩ ∧
      pyContainsB "title" s = .ok false)
    ∨ (∃ e, get_spaces_step st s = .error e) := by
  cases s with
  | null => exact Or.inr ⟨.typeError, rfl⟩
  | bool b => exact Or.inr ⟨.typeError, rfl⟩
  | num n => exact Or.inr ⟨.typeError, rfl⟩
  | str s' =>
    by_cases ht : infixOfStr "title" s' = true
    · exact Or.inr ⟨.typeError, by simp [get_spaces_step, pyContainsB, ht, pySubscript]⟩
    · rw [Bool.not_eq_true] at ht
      exact Or.inl ⟨by simp [get_spaces_step, pyContainsB, ht], by simp [pyContainsB, ht]⟩
  | arr xs =>
    by_cases ht : (xs.any (fun x => x = JSON.str "title")) = true
    · exact Or.inr ⟨.typeError, by simp [get_spaces_step, pyContainsB, ht, pySubscript]⟩
    · rw [Bool.not_eq_true] at ht
      exact Or.inl ⟨by simp [get_spaces_step, pyContainsB, ht], by simp [pyContainsB, ht]⟩
  | obj fs => simp [isObjB] at h

/-- C3 (witness): the amended statement applied at a concrete non-dict entry. -/
theorem get_spaces_step_non_dict_witness :
    (get_spaces_step ⟨⟨[], []⟩, 0, 1⟩ (JSON.str "x") = .ok ⟨⟨[], []⟩, 0, 2⟩ ∧
      pyContainsB "title" (JSON.str "x") = .ok false)
    ∨ (∃ e, get_spaces_step ⟨⟨[], []⟩, 0, 1⟩ (JSON.str "x") = .error e) :=
  get_spaces_step_non_dict_behaviour ⟨⟨[], []⟩, 0, 1⟩ (JSON.str "x") (by decide)

/-- C6: on the spec's end-to-end input the pipeline outputs exactly
`endToEndHtml`: the root list holds exactly one folder heading, titled
`Work`, and the document holds exactly one bookmark anchor,
`<A HREF="https://example.com">Example</A>`, inside it. -/
theorem convert_json_to_html_end_to_end :
    convert_json_to_html 10 endToEndDoc = .ok endToEndHtml ∧
    countSubStr "<DT><H3>" endToEndHtml = 1 ∧
    countSubStr "<DT><H3>Work</H3>" endToEndHtml = 1 ∧
    countSubStr "<DT><A HREF=" endToEndHtml = 1 ∧
    countSubStr "<DT><A HREF=\"https://example.com\">Example</A>" endToEndHtml = 1 := by
  decide

/-! ## C7 — zero pinned spaces -/

/-- C7 (counterexample): the claim quantifies over *any* input with zero
pinned spaces.  But `convert_to_bookmarks` builds the id lookup before ever
consulting the pinned mapping, and the comprehension evaluates `item["id"]`
for every dict item: a dict item without an `id` key raises `KeyError`, so
this zero-pinned-spaces input produces no document at all instead of the
fixed preamble plus closing tag. -/
theorem convert_to_bookmarks_zero_pinned_counterexample :
    convert_to_bookmarks 5 ⟨[], []⟩ [JSON.obj []] = .error .keyError := by
  decide

/-- C7 (amended): for any input with zero pinned spaces *on which the id
lookup construction succeeds*, the produced document is exactly the fixed
preamble (DOCTYPE line, content-type meta line, TITLE and H1 lines, opening
`<DL><p>`) followed immediately by the closing `</DL><p>` line, with zero
bookmarks counted. -/
theorem zero_pinned_spaces_empty_document (fuel : Nat) (spaces : SpacesNames)
    (items : List JSON) (d : List (JSON × JSON))
    (hp : spaces.pinned = []) (hd : itemDictBuild items = .ok d) :
    convert_to_bookmarks fuel spaces items = .ok [] ∧
    convert_bookmarks_to_html [] =
      "<!DOCTYPE NETSCAPE-Bookmark-file-1>\n<META HTTP-EQUIV=\"Content-Type\" CONTENT=\"text/html; charset=UTF-8\">\n<TITLE>Bookmarks</TITLE>\n<H1>Bookmarks</H1>\n<DL><p>\n</DL><p>" ∧
    bookmarksCountL [] = 0 := by
  refine ⟨?_, by decide, rfl⟩
  simp [convert_to_bookmarks, hd, hp, convert_roots]

/-- C7 (witness): the amended statement applied at the empty input. -/
theorem zero_pinned_spaces_empty_document_witness :
    convert_to_bookmarks 0 ⟨[], []⟩ [] = .ok [] ∧
    convert_bookmarks_to_html [] =
      "<!DOCTYPE NETSCAPE-Bookmark-file-1>\n<META HTTP-EQUIV=\"Content-Type\" CONTENT=\"text/html; charset=UTF-8\">\n<TITLE>Bookmarks</TITLE>\n<H1>Bookmarks</H1>\n<DL><p>\n</DL><p>" ∧
    bookmarksCountL [] = 0 :=
  zero_pinned_spaces_empty_document 0 ⟨[], []⟩ [] [] rfl rfl

/-! ## C4 — container selection -/

/-- C4 (counterexample): the claim says that whenever some container has both
keys, one is selected — "including when every qualifying container has zero
items".  The loop starts `max_items = 0` and updates only on a strictly
greater count, so a qualifying container with zero items is never selected:
here the single container has both keys yet selection ends with no target
and the pipeline yields the empty result. -/
theorem select_container_zero_items_counterexample :
    select_container (0, none)
        [JSON.obj [("spaces", JSON.arr []), ("items", JSON.arr [])]] = .ok (0, none) ∧
    pyContainsB "spaces" (JSON.obj [("spaces", JSON.arr []), ("items", JSON.arr [])]) = .ok true ∧
    pyContainsB "items" (JSON.obj [("spaces", JSON.arr []), ("items", JSON.arr [])]) = .ok true ∧
    convert_json_to_html 5 (JSON.obj [("sidebar", JSON.obj [("containers",
      JSON.arr [JSON.obj [("spaces", JSON.arr []), ("items", JSON.arr [])]])])]) = .ok "" := by
  decide

/-- Loop invariant of the container-selection fold, proved by induction on
the container list from an arbitrary running state. -/
theorem select_container_inv (cs : List JSON) :
    ∀ (m0 : Nat) (t0 : Option JSON) (m : Nat) (tgt : Option JSON),
    select_container (m0, t0) cs = .ok (m, tgt) →
    m0 ≤ m ∧
    (∀ c ∈ cs, ∃ q, qualLen c = .ok q) ∧
    (∀ c q, c ∈ cs → qualLen c = .ok (some q) → q ≤ m) ∧
    ((tgt = t0 ∧ m = m0) ∨
     (∃ l1 t l2, cs = l1 ++ t :: l2 ∧ tgt = some t ∧ qualLen t = .ok (some m) ∧ m0 < m ∧
        (∀ c q, c ∈ l1 → qualLen c = .ok (some q) → q < m))) := by
  induction cs with
  | nil =>
    intro m0 t0 m tgt h
    simp only [select_container] at h
    obtain ⟨rfl, rfl⟩ : m0 = m ∧ t0 = tgt := by
      cases h; exact ⟨rfl, rfl⟩
    exact ⟨le_refl _, by simp, by simp, Or.inl ⟨rfl, rfl⟩⟩
  | cons c rest ih =>
    intro m0 t0 m tgt h
    rcases hs : pyContainsB "spaces" c with e | b
    · simp only [select_container, hs] at h
      exact Except.noConfusion h
    · cases b with
      | false =>
        simp only [select_container, hs] at h
        obtain ⟨h1, h2, h3, h4⟩ := ih m0 t0 m tgt h
        refine ⟨h1, ?_, ?_, ?_⟩
        · intro c' hc'
          rcases List.mem_cons.mp hc' with rfl | hc'
          · exact ⟨none, by simp [qualLen, hs]⟩
          · exact h2 c' hc'
        · intro c' q hc' hq
          rcases List.mem_cons.mp hc' with rfl | hc'
          · simp [qualLen, hs] at hq
          · exact h3 c' q hc' hq
        · rcases h4 with hA | ⟨l1, t, l2, hcs, htgt, hqt, hlt, hl1⟩
          · exact Or.inl hA
          · refine Or.inr ⟨c :: l1, t, l2, by simp [hcs], htgt, hqt, hlt, ?_⟩
            intro c' q hc' hq
            rcases List.mem_cons.mp hc' with rfl | hc'
            · simp [qualLen, hs] at hq
            · exact hl1 c' q hc' hq
      | true =>
        rcases hi : pyContainsB "items" c with e | b2
        · simp only [select_container, hs, hi] at h
          exact Except.noConfusion h
        · cases b2 with
          | false =>
            simp only [select_container, hs, hi] at h
            obtain ⟨h1, h2, h3, h4⟩ := ih m0 t0 m tgt h
            refine ⟨h1, ?_, ?_, ?_⟩
            · intro c' hc'
              rcases List.mem_cons.mp hc' with rfl | hc'
              · exact ⟨none, by simp [qualLen, hs, hi]⟩
              · exact h2 c' hc'
            · intro c' q hc' hq
              rcases List.mem_cons.mp hc' with rfl | hc'
              · simp [qualLen, hs, hi] at hq
              · exact h3 c' q hc' hq
            · rcases h4 with hA | ⟨l1, t, l2, hcs, htgt, hqt, hlt, hl1⟩
              · exact Or.inl hA
              · refine Or.inr ⟨c :: l1, t, l2, by simp [hcs], htgt, hqt, hlt, ?_⟩
                intro c' q hc' hq
                rcases List.mem_cons.mp hc' with rfl | hc'
                · simp [qualLen, hs, hi] at hq
                · exact hl1 c' q hc' hq
          | true =>
            rcases hsub : pySubscript c "items" with e | its
            · simp only [select_container, hs, hi, hsub] at h
              exact Except.noConfusion h
            · rcases hlen : pyLen its with e | item_count
              · simp only [select_container, hs, hi, hsub, hlen] at h
                exact Except.noConfusion h
              · have hql : qualLen c = .ok (some item_count) := by
                  simp [qualLen, hs, hi, hsub, hlen]
                simp only [select_container, hs, hi, hsub, hlen] at h
                by_cases hcmp : m0 < item_count
                · rw [if_pos hcmp] at h
                  obtain ⟨h1, h2, h3, h4⟩ := ih item_count (some c) m tgt h
                  refine ⟨le_trans (le_of_lt hcmp) h1, ?_, ?_, ?_⟩
                  · intro c' hc'
                    rcases List.mem_cons.mp hc' with rfl | hc'
                    · exact ⟨some item_count, hql⟩
                    · exact h2 c' hc'
                  · intro c' q hc' hq
                    rcases List.mem_cons.mp hc' with rfl | hc'
                    · rw [hql] at hq; cases hq; exact h1
                    · exact h3 c' q hc' hq
                  · rcases h4 with ⟨htgt, hm⟩ | ⟨l1, t, l2, hcs, htgt, hqt, hlt, hl1⟩
                    · exact Or.inr ⟨[], c, rest, rfl, htgt, by rw [hm]; exact hql,
                        by rw [hm]; exact hcmp, by intro c' q hc'; cases hc'⟩
                    · refine Or.inr ⟨c :: l1, t, l2, by simp [hcs], htgt, hqt,
                        lt_trans hcmp hlt, ?_⟩
                      intro c' q hc' hq
                      rcases List.mem_cons.mp hc' with rfl | hc'
                      · rw [hql] at hq; cases hq; exact hlt
                      · exact hl1 c' q hc' hq
                · rw [if_neg hcmp] at h
                  obtain ⟨h1, h2, h3, h4⟩ := ih m0 t0 m tgt h
                  push_neg at hcmp
                  refine ⟨h1, ?_, ?_, ?_⟩
                  · intro c' hc'
                    rcases List.mem_cons.mp hc' with rfl | hc'
                    · exact ⟨some item_count, hql⟩
                    · exact h2 c' hc'
                  · intro c' q hc' hq
                    rcases List.mem_cons.mp hc' with rfl | hc'
                    · rw [hql] at hq; cases hq; exact le_trans hcmp h1
                    · exact h3 c' q hc' hq
                  · rcases h4 with hA | ⟨l1, t, l2, hcs, htgt, hqt, hlt, hl1⟩
                    · exact Or.inl hA
                    · refine Or.inr ⟨c :: l1, t, l2, by simp [hcs], htgt, hqt, hlt, ?_⟩
                      intro c' q hc' hq
                      rcases List.mem_cons.mp hc' with rfl | hc'
                      · rw [hql] at hq; cases hq; exact lt_of_le_of_lt hcmp hlt
                      · exact hl1 c' q hc' hq

/-- C4 (amended): among the containers having both a `spaces` and an `items`
key, `convert_json_to_html` selects the one with the greatest *non-zero*
`items` cardinality, ties broken in favour of the first encountered (every
earlier qualifying container has a strictly smaller count); when no
container has both keys, **or every qualifying container has zero items**,
no container is selected and the pipeline yields the empty result. -/
theorem select_container_max_items (cs : List JSON) (m : Nat) (tgt : Option JSON)
    (h : select_container (0, none) cs = .ok (m, tgt)) :
    (tgt = none → ∀ c q, c ∈ cs → qualLen c = .ok (some q) → q = 0) ∧
    (∀ t, tgt = some t →
      ∃ l1 l2, cs = l1 ++ t :: l2 ∧ qualLen t = .ok (some m) ∧ 0 < m ∧
        (∀ c q, c ∈ l1 → qualLen c = .ok (some q) → q < m) ∧
        (∀ c q, c ∈ cs → qualLen c = .ok (some q) → q ≤ m)) := by
  obtain ⟨_, _, h3, h4⟩ := select_container_inv cs 0 none m tgt h
  constructor
  · intro htgt c q hc hq
    rcases h4 with ⟨_, rfl⟩ | ⟨l1, t, l2, _, htgt', _, _, _⟩
    · exact Nat.le_zero.mp (h3 c q hc hq)
    · rw [htgt] at htgt'; cases htgt'
  · intro t ht
    rcases h4 with ⟨htgt, _⟩ | ⟨l1, t', l2, hcs, htgt', hqt, hlt, hl1⟩
    · rw [ht] at htgt; cases htgt
    · rw [ht] at htgt'
      obtain rfl : t' = t := by cases htgt'; rfl
      exact ⟨l1, l2, hcs, hqt, hlt, hl1, h3⟩

/-- C4 (witness): the amended statement applied to a concrete run that
selects a container with one item. -/
theorem select_container_max_items_witness :
    ((some (JSON.obj [("spaces", JSON.arr []), ("items", JSON.arr [JSON.str "i"])]) : Option JSON) = none →
      ∀ c q, c ∈ [JSON.obj [("spaces", JSON.arr []), ("items", JSON.arr [JSON.str "i"])]] →
        qualLen c = .ok (some q) → q = 0) ∧
    (∀ t, (some (JSON.obj [("spaces", JSON.arr []), ("items", JSON.arr [JSON.str "i"])]) : Option JSON) = some t →
      ∃ l1 l2, [JSON.obj [("spaces", JSON.arr []), ("items", JSON.arr [JSON.str "i"])]] = l1 ++ t :: l2 ∧
        qualLen t = .ok (some 1) ∧ 0 < 1 ∧
        (∀ c q, c ∈ l1 → qualLen c = .ok (some q) → q < 1) ∧
        (∀ c q, c ∈ [JSON.obj [("spaces", JSON.arr []), ("items", JSON.arr [JSON.str "i"])]] →
          qualLen c = .ok (some q) → q ≤ 1)) :=
  select_container_max_items
    [JSON.obj [("spaces", JSON.arr []), ("items", JSON.arr [JSON.str "i"])]] 1
    (some (JSON.obj [("spaces", JSON.arr []), ("items", JSON.arr [JSON.str "i"])]))
    (by decide)

/-! ## C8 — the Repair Pass -/

theorem replaceAllAux_no_occ (pat rep : List Char) :
    ∀ (fuel : Nat) (s : List Char), infixOf pat s = false → replaceAllAux pat rep fuel s = s := by
  intro fuel
  induction fuel with
  | zero => intro s _; rfl
  | succ n ih =>
    intro s h
    cases s with
    | nil => rfl
    | cons c rest =>
      cases hp : pat.isPrefixOf (c :: rest) with
      | true => rw [infixOf, hp] at h; simp at h
      | false =>
        rw [infixOf, hp] at h
        simp only [Bool.false_or] at h
        rw [replaceAllAux]
        simp [hp, ih rest h]

theorem strMk_data (s : String) : String.mk s.data = s := by
  cases s
  rfl

theorem replaceAllStr_no_occ (pat rep s : String) (h : infixOfStr pat s = false) :
    replaceAllStr pat rep s = s := by
  unfold replaceAllStr replaceAll
  rw [replaceAllAux_no_occ pat.data rep.data s.data.length s.data h]

/-- C8: the Repair Pass applies exactly the five literal replacements of the
source, in order, at every occurrence, and changes nothing else (a text
containing none of the five patterns is returned unchanged); the spec's
example text containing `"file:\/\/\/Users\/x"` parses successfully after
repair into the URL `file:///Users/x`; and text that still fails to parse
after repair makes `read_json` fail with the fatal JSON-decode error — no
partial result.  The final conjunct exercises all five patterns at once, in
order. -/
theorem fix_malformed_urls_spec :
    (∀ s : String,
      infixOfStr "file:\\/\\/\\/" s = false →
      infixOfStr "https:\\/\\/" s = false →
      infixOfStr "http:\\/\\/" s = false →
      infixOfStr "C:\\" s = false →
      infixOfStr "D:\\" s = false →
      fix_malformed_urls s = s) ∧
    read_json "\x7b\"url\": \"file:\\/\\/\\/Users\\/x\"\x7d" =
      .ok (JSON.obj [("url", JSON.str "file:///Users/x")]) ∧
    read_json "\x7b\"url\": \"a\\qb\"\x7d" = .error .jsonDecodeError ∧
    fix_malformed_urls "x C:\\y D:\\z https:\\/\\/a http:\\/\\/b file:\\/\\/\\/c" =
      "x C:/y D:/z https://a http://b file:///c" := by
  refine ⟨?_, by decide, by decide, by decide⟩
  intro s h1 h2 h3 h4 h5
  simp only [fix_malformed_urls]
  rw [replaceAllStr_no_occ _ _ _ h1, replaceAllStr_no_occ _ _ _ h2,
      replaceAllStr_no_occ _ _ _ h3, replaceAllStr_no_occ _ _ _ h4]
  exact replaceAllStr_no_occ _ _ _ h5

/-- C8 (witness): the no-occurrence part applied at a concrete string. -/
theorem fix_malformed_urls_spec_witness : fix_malformed_urls "hello world" = "hello world" :=
  fix_malformed_urls_spec.1 "hello world" (by decide) (by decide) (by decide)
    (by decide) (by decide)

/-! ## C10 — item-level title overrides the saved title -/

/-- Membership lemma for the recursion: an entry of the scanned tail whose
`parentID` equals the current parent id and which classifies as a bookmark
contributes its bookmark node to the successful result. -/
theorem recurseGo_ok_mem_bookmark (d : List (JSON × JSON)) :
    ∀ (fuel : Nat) (pid : JSON) (es : List (JSON × JSON)) (cs : List Node)
      (k it : JSON) (nd : Node),
      recurseGo d fuel pid es = .ok cs → (k, it) ∈ es →
      pyGet it "parentID" JSON.null = .ok pid →
      bookmarkTest it = .ok true → bmNode it = .ok nd →
      nd ∈ cs := by
  intro fuel
  induction fuel with
  | zero =>
    intro pid es cs k it nd h
    exact absurd h (by simp [recurseGo])
  | succ n ih =>
    intro pid es cs k it nd h hmem hp hb hn
    cases es with
    | nil => cases hmem
    | cons e rest =>
      obtain ⟨k', it'⟩ := e
      rcases List.mem_cons.mp hmem with heq | hmem'
      · obtain ⟨rfl, rfl⟩ : k' = k ∧ it' = it := by cases heq; exact ⟨rfl, rfl⟩
        simp only [recurseGo, hp, if_pos rfl, hb, hn] at h
        rcases hr : recurseGo d n pid rest with e | rest'
        · rw [hr] at h; exact absurd h (Except.noConfusion)
        · rw [hr] at h
          obtain rfl : nd :: rest' = cs := by cases h; rfl
          exact List.mem_cons_self nd rest'
      · rcases hpv : pyGet it' "parentID" JSON.null with e | pv
        · simp only [recurseGo, hpv] at h; exact absurd h (Except.noConfusion)
        · by_cases hpe : pv = pid
          · subst hpe
            rcases hbt : bookmarkTest it' with e | b
            · simp only [recurseGo, hpv, if_pos rfl, hbt] at h
              exact absurd h (Except.noConfusion)
            · cases b with
              | true =>
                rcases hbn : bmNode it' with e | nd'
                · simp only [recurseGo, hpv, if_pos rfl, hbt, hbn] at h
                  exact absurd h (Except.noConfusion)
                · rcases hr : recurseGo d n pv rest with e | rest'
                  · simp only [recurseGo, hpv, if_pos rfl, hbt, hbn, hr] at h
                    exact absurd h (Except.noConfusion)
                  · simp only [recurseGo, hpv, if_pos rfl, hbt, hbn, hr] at h
                    obtain rfl : nd' :: rest' = cs := by cases h; rfl
                    exact List.mem_cons_of_mem nd' (ih pv rest rest' k it nd hr hmem' hp hb hn)
              | false =>
                rcases hct : pyContainsB "title" it' with e | bt
                · simp only [recurseGo, hpv, if_pos rfl, hbt, hct] at h
                  exact absurd h (Except.noConfusion)
                · cases bt with
                  | true =>
                    rcases hsub : pySubscript it' "title" with e | t
                    · simp only [recurseGo, hpv, if_pos rfl, hbt, hct, hsub] at h
                      exact absurd h (Except.noConfusion)
                    · rcases hds : recurseGo d n k' d with e | cs'
                      · simp only [recurseGo, hpv, if_pos rfl, hbt, hct, hsub, hds] at h
                        exact absurd h (Except.noConfusion)
                      · rcases hr : recurseGo d n pv rest with e | rest'
                        · simp only [recurseGo, hpv, if_pos rfl, hbt, hct, hsub, hds, hr] at h
                          exact absurd h (Except.noConfusion)
                        · simp only [recurseGo, hpv, if_pos rfl, hbt, hct, hsub, hds, hr] at h
                          obtain rfl : Node.folder t cs' :: rest' = cs := by cases h; rfl
                          exact List.mem_cons_of_mem _ (ih pv rest rest' k it nd hr hmem' hp hb hn)
                  | false =>
                    simp only [recurseGo, hpv, if_pos rfl, hbt, hct] at h
                    exact ih pv rest cs k it nd h hmem' hp hb hn
          · simp only [recurseGo, hpv, if_neg hpe] at h
            exact ih pid rest cs k it nd h hmem' hp hb hn

/-- C10: an item classified as a Bookmark whose own `title` field is truthy
(present, non-null, non-empty) is rendered with that item-level title as the
anchor's visible text — the produced node is `bookmark title url` and its
rendered line interpolates `str(title)` — while the saved title is used
exactly when the item-level title is falsy (absent, null, empty):
`item.get("title", None) or tab.get("savedTitle", "")`. -/
theorem bookmark_anchor_text_item_title :
    (∀ (d : List (JSON × JSON)) (fuel : Nat) (pid : JSON) (cs : List Node)
       (k it t0 tb u : JSON),
      recurse_into_children d fuel pid = .ok cs →
      (k, it) ∈ d →
      pyGet it "parentID" JSON.null = .ok pid →
      bookmarkTest it = .ok true →
      pyGet it "title" JSON.null = .ok t0 →
      pyTruthy t0 = true →
      tabOf it = .ok tb →
      pyGet tb "savedURL" (JSON.str "") = .ok u →
      Node.bookmark t0 u ∈ cs ∧
      ∀ (html : String) (level : Nat),
        traverseItem (Node.bookmark t0 u) html level =
          html ++ "\n" ++ tabs level ++ "<DT><A HREF=\"" ++ pyStr u ++ "\">" ++ pyStr t0 ++ "</A>") ∧
    (∀ (it t0 tb st u : JSON),
      bookmarkTest it = .ok true →
      pyGet it "title" JSON.null = .ok t0 →
      pyTruthy t0 = false →
      tabOf it = .ok tb →
      pyGet tb "savedTitle" (JSON.str "") = .ok st →
      pyGet tb "savedURL" (JSON.str "") = .ok u →
      bmNode it = .ok (Node.bookmark st u)) := by
  constructor
  · intro d fuel pid cs k it t0 tb u h hmem hp hb ht htr htb hu
    have hn : bmNode it = .ok (Node.bookmark t0 u) := by
      simp [bmNode, bmTitle, ht, htr, htb, hu]
    refine ⟨recurseGo_ok_mem_bookmark d fuel pid d cs k it _ h hmem hp hb hn, ?_⟩
    intro html level
    simp [traverseItem]
  · intro it t0 tb st u hb ht htr htb hst hu
    simp [bmNode, bmTitle, ht, htr, htb, hst, hu]

/-- C10 (witness): the first part applied to a one-item run where the item
carries its own truthy title `"Mine"`; the resulting anchor text is `Mine`,
not the saved title `T`. -/
theorem bookmark_anchor_text_item_title_witness :
    Node.bookmark (JSON.str "Mine") (JSON.str "u") ∈
      [Node.bookmark (JSON.str "Mine") (JSON.str "u")] ∧
    ∀ (html : String) (level : Nat),
      traverseItem (Node.bookmark (JSON.str "Mine") (JSON.str "u")) html level =
        html ++ "\n" ++ tabs level ++ "<DT><A HREF=\"" ++ pyStr (JSON.str "u") ++ "\">" ++
          pyStr (JSON.str "Mine") ++ "</A>" :=
  bookmark_anchor_text_item_title.1
    [(JSON.str "b", JSON.obj [("id", JSON.str "b"), ("parentID", JSON.str "p"),
      ("title", JSON.str "Mine"),
      ("data", JSON.obj [("tab", JSON.obj [("savedTitle", JSON.str "T"),
        ("savedURL", JSON.str "u")])])])]
    3 (JSON.str "p")
    [Node.bookmark (JSON.str "Mine") (JSON.str "u")]
    (JSON.str "b")
    (JSON.obj [("id", JSON.str "b"), ("parentID", JSON.str "p"),
      ("title", JSON.str "Mine"),
      ("data", JSON.obj [("tab", JSON.obj [("savedTitle", JSON.str "T"),
        ("savedURL", JSON.str "u")])])])
    (JSON.str "Mine")
    (JSON.obj [("savedTitle", JSON.str "T"), ("savedURL", JSON.str "u")])
    (JSON.str "u")
    (by decide) (by decide) (by decide) (by decide) (by decide) (by decide) (by decide) (by decide)

theorem pyGet_no_fuelOut (v : JSON) (key : String) (dflt : JSON) :
    pyGet v key dflt ≠ .error .fuelOut := by
  cases v with
  | obj fs => rcases hl : objLookup key fs with _ | w <;> simp [pyGet, hl]
  | null => simp [pyGet]
  | bool b => simp [pyGet]
  | num n => simp [pyGet]
  | str s => simp [pyGet]
  | arr xs => simp [pyGet]

theorem pySubscript_no_fuelOut (v : JSON) (key : String) :
    pySubscript v key ≠ .error .fuelOut := by
  cases v with
  | obj fs => rcases hl : objLookup key fs with _ | w <;> simp [pySubscript, hl]
  | null => simp [pySubscript]
  | bool b => simp [pySubscript]
  | num n => simp [pySubscript]
  | str s => simp [pySubscript]
  | arr xs => simp [pySubscript]

theorem pyContainsB_no_fuelOut (key : String) (v : JSON) :
    pyContainsB key v ≠ .error .fuelOut := by
  cases v <;> simp [pyContainsB]

theorem tabOf_no_fuelOut (item : JSON) : tabOf item ≠ .error .fuelOut := by
  rw [tabOf]
  rcases h : pySubscript item "data" with e | dv
  · intro hc
    exact pySubscript_no_fuelOut item "data" (by rw [h]; cases hc; rfl)
  · exact pySubscript_no_fuelOut dv "tab"

theorem bookmarkTest_no_fuelOut (item : JSON) : bookmarkTest item ≠ .error .fuelOut := by
  rw [bookmarkTest]
  rcases h : pyContainsB "data" item with e | b
  · intro hc
    exact pyContainsB_no_fuelOut "data" item (by rw [h]; cases hc; rfl)
  · cases b with
    | false => simp
    | true =>
      rcases h2 : pySubscript item "data" with e | dv
      · intro hc
        exact pySubscript_no_fuelOut item "data" (by rw [h2]; cases hc; rfl)
      · exact pyContainsB_no_fuelOut "tab" dv

theorem bmTitle_no_fuelOut (item t0 : JSON) : bmTitle item t0 ≠ .error .fuelOut := by
  rw [bmTitle]
  by_cases ht : pyTruthy t0 = true
  · rw [if_pos ht]; simp
  · rw [if_neg ht]
    rcases htb : tabOf item with e | tb
    · intro hc
      exact tabOf_no_fuelOut item (by rw [htb]; cases hc; rfl)
    · exact pyGet_no_fuelOut tb "savedTitle" (JSON.str "")

theorem bmNode_no_fuelOut (item : JSON) : bmNode item ≠ .error .fuelOut := by
  intro hc
  rw [bmNode] at hc
  split at hc
  next e heq => cases hc; exact pyGet_no_fuelOut item "title" JSON.null heq
  next t0 heq =>
    split at hc
    next e2 heq2 => cases hc; exact bmTitle_no_fuelOut item t0 heq2
    next title heq2 =>
      split at hc
      next e3 heq3 => cases hc; exact tabOf_no_fuelOut item heq3
      next tb heq3 =>
        split at hc
        next e4 heq4 => cases hc; exact pyGet_no_fuelOut tb "savedURL" (JSON.str "") heq4
        next u heq4 => cases hc

/-- If `pyGet` returns a value, the receiver is a dict and the value is the
total lookup-with-default. -/
theorem pyGet_ok_objGetD (v : JSON) (key : String) (dflt w : JSON)
    (h : pyGet v key dflt = .ok w) : objGetD v key dflt = w := by
  cases v with
  | obj fs =>
    rcases hl : objLookup key fs with _ | u
    · simp [pyGet, hl] at h; simp [objGetD, hl, h]
    · simp [pyGet, hl] at h; simp [objGetD, hl, h]
  | null => simp [pyGet] at h
  | bool b => simp [pyGet] at h
  | num n => simp [pyGet] at h
  | str s => simp [pyGet] at h
  | arr xs => simp [pyGet] at h

/-- Fuel-sufficiency: with a rank function witnessing acyclicity, the
recursion never exhausts `r pid * (|d| + 1) + |es|` units of fuel (one unit
per scanned entry plus one per descent, whose depth the rank bounds). -/
theorem recurseGo_no_fuelOut (d : List (JSON × JSON)) (r : JSON → Nat)
    (hr : RankedParents d r) :
    ∀ (fuel : Nat) (pid : JSON) (es : List (JSON × JSON)),
      (∀ p ∈ es, p ∈ d) →
      r pid * (d.length + 1) + es.length < fuel →
      recurseGo d fuel pid es ≠ .error .fuelOut := by
  intro fuel
  induction fuel with
  | zero => intro pid es hsub hlt; omega
  | succ f ih =>
    intro pid es hsub hlt
    cases es with
    | nil => simp [recurseGo]
    | cons e rest =>
      obtain ⟨k, it⟩ := e
      have hsubr : ∀ p ∈ rest, p ∈ d := fun p hp => hsub p (List.mem_cons_of_mem _ hp)
      have hltr : r pid * (d.length + 1) + rest.length < f := by
        simp only [List.length_cons] at hlt; omega
      rcases hpv : pyGet it "parentID" JSON.null with e' | pv
      · simp only [recurseGo, hpv]
        intro hc
        exact pyGet_no_fuelOut it "parentID" JSON.null (by rw [hpv]; cases hc; rfl)
      · by_cases hpe : pv = pid
        · subst hpe
          rcases hbt : bookmarkTest it with e' | b
          · simp only [recurseGo, hpv, if_pos rfl, hbt]
            intro hc
            exact bookmarkTest_no_fuelOut it (by rw [hbt]; cases hc; rfl)
          · cases b with
            | true =>
              rcases hbn : bmNode it with e' | nd
              · simp only [recurseGo, hpv, if_pos rfl, hbt, hbn]
                intro hc
                exact bmNode_no_fuelOut it (by rw [hbn]; cases hc; rfl)
              · simp only [recurseGo, hpv, if_pos rfl, hbt, hbn]
                rcases hrest : recurseGo d f pv rest with e2 | rest'
                · intro hc
                  exact ih pv rest hsubr hltr (by rw [hrest]; cases hc; rfl)
                · simp
            | false =>
              rcases hct : pyContainsB "title" it with e' | bt
              · simp only [recurseGo, hpv, if_pos rfl, hbt, hct]
                intro hc
                exact pyContainsB_no_fuelOut "title" it (by rw [hct]; cases hc; rfl)
              · cases bt with
                | true =>
                  rcases hsb : pySubscript it "title" with e' | t
                  · simp only [recurseGo, hpv, if_pos rfl, hbt, hct, hsb]
                    intro hc
                    exact pySubscript_no_fuelOut it "title" (by rw [hsb]; cases hc; rfl)
                  · have hkd : (k, it) ∈ d := hsub (k, it) (List.mem_cons_self _ _)
                    have hrank : r k < r pv := by
                      have hx := hr k it hkd
                      rwa [pyGet_ok_objGetD it "parentID" JSON.null pv hpv] at hx
                    have hltd : r k * (d.length + 1) + d.length < f := by
                      have hm : (r k + 1) * (d.length + 1) ≤ r pv * (d.length + 1) :=
                        Nat.mul_le_mul_right _ hrank
                      have hy : r pv * (d.length + 1) + (rest.length + 1) < f + 1 := by
                        simpa using hlt
                      nlinarith [hm, hy]
                    rcases hds : recurseGo d f k d with e2 | cs
                    · simp only [recurseGo, hpv, if_pos rfl, hbt, hct, hsb, hds]
                      intro hc
                      exact ih k d (fun p hp => hp) hltd (by rw [hds]; cases hc; rfl)
                    · simp only [recurseGo, hpv, if_pos rfl, hbt, hct, hsb, hds]
                      rcases hrest : recurseGo d f pv rest with e2 | rest'
                      · intro hc
                        exact ih pv rest hsubr hltr (by rw [hrest]; cases hc; rfl)
                      · simp
                | false =>
                  simp only [recurseGo, hpv, if_pos rfl, hbt, hct]
                  exact ih pv rest hsubr hltr
        · simp only [recurseGo, hpv, if_neg hpe]
          exact ih pid rest hsubr hltr

theorem cyc_diverges (fuel : Nat) :
    recurseGo cycItemDict fuel (JSON.str "a") cycItemDict = .error .fuelOut ∧
    recurseGo cycItemDict fuel (JSON.str "a") [(JSON.str "b", cycItemB)] = .error .fuelOut ∧
    recurseGo cycItemDict fuel (JSON.str "b") cycItemDict = .error .fuelOut := by
  induction fuel with
  | zero => exact ⟨rfl, rfl, rfl⟩
  | succ n ih =>
    obtain ⟨ih1, ih2, ih3⟩ := ih
    refine ⟨?_, ?_, ?_⟩
    · show recurseGo cycItemDict (n + 1) (JSON.str "a")
        ((JSON.str "a", cycItemA) :: [(JSON.str "b", cycItemB)]) = .error .fuelOut
      rw [recurseGo]
      simp [cycItemA, pyGet, objLookup, ih2]
    · show recurseGo cycItemDict (n + 1) (JSON.str "a")
        ((JSON.str "b", cycItemB) :: []) = .error .fuelOut
      rw [recurseGo]
      simp [cycItemB, pyGet, objLookup, bookmarkTest, pyContainsB, pySubscript, ih3]
    · show recurseGo cycItemDict (n + 1) (JSON.str "b")
        ((JSON.str "a", cycItemA) :: [(JSON.str "b", cycItemB)]) = .error .fuelOut
      rw [recurseGo]
      simp [cycItemA, pyGet, objLookup, bookmarkTest, pyContainsB, pySubscript, ih1]

/-- C9: the recursive descent has no depth or cycle guard, and it terminates
exactly under the well-formedness precondition: (1) whenever a rank function
witnesses that the `parentID` relation of `item_dict` is acyclic, the
recursion completes — it never exhausts fuel beyond
`r pid * (|item_dict| + 1) + |item_dict|` — for every starting parent
identifier; (2) on a cyclic parent relationship (two folder items that are
each other's parents) the recursion exhausts *every* amount of fuel, i.e.
the unguarded Python original never terminates there. -/
theorem recurse_into_children_terminates_iff_acyclic :
    (∀ (d : List (JSON × JSON)) (r : JSON → Nat), RankedParents d r →
      ∀ (fuel : Nat) (pid : JSON),
        r pid * (d.length + 1) + d.length < fuel →
        recurse_into_children d fuel pid ≠ .error .fuelOut) ∧
    (∀ fuel : Nat, recurse_into_children cycItemDict fuel (JSON.str "b") = .error .fuelOut) := by
  constructor
  · intro d r hr fuel pid hlt
    exact recurseGo_no_fuelOut d r hr fuel pid d (fun p hp => hp) hlt
  · intro fuel
    exact (cyc_diverges fuel).2.2

/-- C9 (witness): the acyclicity part applied to a concrete one-item list
with an explicit rank function. -/
theorem recurse_into_children_terminates_iff_acyclic_witness :
    recurse_into_children
      [(JSON.str "x", JSON.obj [("id", JSON.str "x"), ("parentID", JSON.str "c1"),
        ("title", JSON.str "T")])] 4 (JSON.str "c1") ≠ .error .fuelOut :=
  recurse_into_children_terminates_iff_acyclic.1
    [(JSON.str "x", JSON.obj [("id", JSON.str "x"), ("parentID", JSON.str "c1"),
      ("title", JSON.str "T")])]
    (fun v => if v = JSON.str "x" then 0 else 1)
    (by
      intro k it hmem
      simp only [List.mem_singleton] at hmem
      obtain ⟨rfl, rfl⟩ : k = JSON.str "x" ∧
        it = JSON.obj [("id", JSON.str "x"), ("parentID", JSON.str "c1"),
          ("title", JSON.str "T")] := by cases hmem; exact ⟨rfl, rfl⟩
      decide)
    4 (JSON.str "c1") (by decide)

/-! ## C5 — the title invariant of the built tree -/

/-- C5 (counterexample): a folder item whose `title` field is present but
holds JSON `null` produces a folder node with a null (non-string) title,
and a bookmark item whose `savedTitle` is present but null produces a
bookmark node with a null title — `x or y` returns `y` unchanged, and
`dict.get` only applies its default when the key is absent.  The spec's
invariant "every BookmarkNode's title is a non-null string" fails on both. -/
theorem convert_to_bookmarks_null_title_counterexample :
    convert_to_bookmarks 5 ⟨[("c1", JSON.str "S")], []⟩
        [JSON.obj [("id", JSON.str "x"), ("parentID", JSON.str "c1"), ("title", JSON.null)]] =
      .ok [Node.folder (JSON.str "S") [Node.folder JSON.null []]] ∧
    titlesAreStringsL [Node.folder (JSON.str "S") [Node.folder JSON.null []]] = false ∧
    convert_to_bookmarks 5 ⟨[("c1", JSON.str "S")], []⟩
        [JSON.obj [("id", JSON.str "y"), ("parentID", JSON.str "c1"),
          ("data", JSON.obj [("tab", JSON.obj [("savedTitle", JSON.null),
            ("savedURL", JSON.str "u")])])]] =
      .ok [Node.folder (JSON.str "S") [Node.bookmark JSON.null (JSON.str "u")]] ∧
    titlesAreStringsL [Node.folder (JSON.str "S") [Node.bookmark JSON.null (JSON.str "u")]] = false := by
  decide

theorem dictSetJ_mem (acc : List (JSON × JSON)) (k v : JSON) :
    ∀ p ∈ dictSetJ acc k v, p ∈ acc ∨ p = (k, v) := by
  induction acc with
  | nil =>
    intro p hp
    simp only [dictSetJ, List.mem_singleton] at hp
    exact Or.inr hp
  | cons e rest ih =>
    obtain ⟨k', v'⟩ := e
    intro p hp
    rw [dictSetJ] at hp
    by_cases hk : k' = k
    · rw [if_pos hk] at hp
      rcases List.mem_cons.mp hp with rfl | hp'
      · exact Or.inr (by rw [hk])
      · exact Or.inl (List.mem_cons_of_mem _ hp')
    · rw [if_neg hk] at hp
      rcases List.mem_cons.mp hp with rfl | hp'
      · exact Or.inl (List.mem_cons_self _ _)
      · rcases ih p hp' with h | h
        · exact Or.inl (List.mem_cons_of_mem _ h)
        · exact Or.inr h

theorem itemDictAux_mem (items : List JSON) :
    ∀ (acc d : List (JSON × JSON)), itemDictAux acc items = .ok d →
      ∀ p ∈ d, p ∈ acc ∨ p.2 ∈ items := by
  induction items with
  | nil =>
    intro acc d h p hp
    obtain rfl : acc = d := by rw [itemDictAux] at h; cases h; rfl
    exact Or.inl hp
  | cons item rest ih =>
    intro acc d h p hp
    have step : ∀ (acc' : List (JSON × JSON)), itemDictAux acc' rest = .ok d →
        (∀ q ∈ acc', q ∈ acc ∨ q.2 = item) → p ∈ acc ∨ p.2 ∈ item :: rest := by
      intro acc' h' hacc
      rcases ih acc' d h' p hp with hin | hin
      · rcases hacc p hin with h2 | h2
        · exact Or.inl h2
        · exact Or.inr (by rw [h2]; exact List.mem_cons_self _ _)
      · exact Or.inr (List.mem_cons_of_mem _ hin)
    cases item with
    | obj fs =>
      rcases hk : pySubscript (JSON.obj fs) "id" with e | kv
      · simp only [itemDictAux, hk] at h
        exact absurd h (Except.noConfusion)
      · cases kv with
        | arr xs =>
          simp only [itemDictAux, hk] at h
          exact absurd h (Except.noConfusion)
        | obj fs2 =>
          simp only [itemDictAux, hk] at h
          exact absurd h (Except.noConfusion)
        | null =>
          simp only [itemDictAux, hk] at h
          exact step _ h (fun q hq => (dictSetJ_mem acc _ _ q hq).imp id (fun he => by rw [he]))
        | bool b =>
          simp only [itemDictAux, hk] at h
          exact step _ h (fun q hq => (dictSetJ_mem acc _ _ q hq).imp id (fun he => by rw [he]))
        | num n =>
          simp only [itemDictAux, hk] at h
          exact step _ h (fun q hq => (dictSetJ_mem acc _ _ q hq).imp id (fun he => by rw [he]))
        | str s =>
          simp only [itemDictAux, hk] at h
          exact step _ h (fun q hq => (dictSetJ_mem acc _ _ q hq).imp id (fun he => by rw [he]))
    | null => simp only [itemDictAux] at h; exact step acc h (fun q hq => Or.inl hq)
    | bool b => simp only [itemDictAux] at h; exact step acc h (fun q hq => Or.inl hq)
    | num n => simp only [itemDictAux] at h; exact step acc h (fun q hq => Or.inl hq)
    | str s => simp only [itemDictAux] at h; exact step acc h (fun q hq => Or.inl hq)
    | arr xs => simp only [itemDictAux] at h; exact step acc h (fun q hq => Or.inl hq)

/-- A bookmark node built from an item with string-valued title fields has a
string title. -/
theorem bmNode_ok_title_isStr (it : JSON) (nd : Node) (hok : titleFieldOkB it = true)
    (h : bmNode it = .ok nd) : titlesAreStrings nd = true := by
  rw [titleFieldOkB, Bool.and_eq_true] at hok
  obtain ⟨hok1, hok2⟩ := hok
  rw [bmNode] at h
  split at h
  next e heq => exact absurd h (Except.noConfusion)
  next t0 heq =>
    split at h
    next e2 heq2 => exact absurd h (Except.noConfusion)
    next title heq2 =>
      split at h
      next e3 heq3 => exact absurd h (Except.noConfusion)
      next tb heq3 =>
        split at h
        next e4 heq4 => exact absurd h (Except.noConfusion)
        next u heq4 =>
          obtain rfl : Node.bookmark title u = nd := by cases h; rfl
          show isStrB title = true
          rcases hit : it with _ | b | n | s | xs | fs
          all_goals rw [hit] at heq
          case null => exact absurd heq (by simp [pyGet])
          case bool => exact absurd heq (by simp [pyGet])
          case num => exact absurd heq (by simp [pyGet])
          case str => exact absurd heq (by simp [pyGet])
          case arr => exact absurd heq (by simp [pyGet])
          case obj =>
            simp only [hit, titleOk1] at hok1
            rw [hit] at heq2
            rw [bmTitle] at heq2
            by_cases htr : pyTruthy t0 = true
            · rw [if_pos htr] at heq2
              obtain rfl : t0 = title := by cases heq2; rfl
              rcases hl : objLookup "title" fs with _ | t
              · simp only [pyGet, hl] at heq
                obtain rfl : JSON.null = t0 := by cases heq; rfl
                exact absurd htr (by decide)
              · simp only [pyGet, hl] at heq
                obtain rfl : t = t0 := by cases heq; rfl
                simp only [hl] at hok1
                exact hok1
            · rw [if_neg htr] at heq2
              split at heq2
              next e5 heq5 => exact absurd heq2 (Except.noConfusion)
              next tb' heq5 =>
                rw [titleOk2] at hok2
                rw [hit] at hok2
                simp only [heq5] at hok2
                rcases htb' : tb' with _ | b2 | n2 | s2 | xs2 | fs2
                all_goals rw [htb'] at heq2
                case null => exact absurd heq2 (by simp [pyGet])
                case bool => exact absurd heq2 (by simp [pyGet])
                case num => exact absurd heq2 (by simp [pyGet])
                case str => exact absurd heq2 (by simp [pyGet])
                case arr => exact absurd heq2 (by simp [pyGet])
                case obj =>
                  simp only [htb'] at hok2
                  rcases hl2 : objLookup "savedTitle" fs2 with _ | st
                  · simp only [pyGet, hl2] at heq2
                    obtain rfl : JSON.str "" = title := by cases heq2; rfl
                    decide
                  · simp only [pyGet, hl2] at heq2
                    obtain rfl : st = title := by cases heq2; rfl
                    simp only [hl2] at hok2
                    exact hok2

/-- The recursion preserves the (conditional) title invariant. -/
theorem recurseGo_titles (d : List (JSON × JSON))
    (hd : ∀ k it, (k, it) ∈ d → titleFieldOkB it = true) :
    ∀ (fuel : Nat) (pid : JSON) (es : List (JSON × JSON)) (cs : List Node),
      (∀ p ∈ es, p ∈ d) → recurseGo d fuel pid es = .ok cs →
      titlesAreStringsL cs = true := by
  intro fuel
  induction fuel with
  | zero =>
    intro pid es cs _ h
    exact absurd h (by simp [recurseGo])
  | succ f ih =>
    intro pid es cs hsub h
    cases es with
    | nil =>
      obtain rfl : ([] : List Node) = cs := by
        rw [recurseGo] at h; cases h; rfl
      rfl
    | cons e rest =>
      obtain ⟨k, it⟩ := e
      have hsubr : ∀ p ∈ rest, p ∈ d := fun p hp => hsub p (List.mem_cons_of_mem _ hp)
      have hokit : titleFieldOkB it = true :=
        hd k it (hsub (k, it) (List.mem_cons_self _ _))
      rw [recurseGo] at h
      split at h
      next e' heq => exact absurd h (Except.noConfusion)
      next pv heq =>
        split at h
        · -- pv = pid
          split at h
          next e' hbt => exact absurd h (Except.noConfusion)
          next hbt =>
            -- bookmark branch
            split at h
            next e' hbn => exact absurd h (Except.noConfusion)
            next nd hbn =>
              split at h
              next e2 hrest => exact absurd h (Except.noConfusion)
              next rest' hrest =>
                obtain rfl : nd :: rest' = cs := by cases h; rfl
                have hnd : titlesAreStrings nd = true := bmNode_ok_title_isStr it nd hokit hbn
                have hrest' : titlesAreStringsL rest' = true := ih pid rest rest' hsubr hrest
                simp [titlesAreStringsL, hnd, hrest']
          next hbt =>
            -- folder-or-skip branch
            split at h
            next e' hct => exact absurd h (Except.noConfusion)
            next hct =>
              split at h
              next e' hsb => exact absurd h (Except.noConfusion)
              next t hsb =>
                split at h
                next e2 hds => exact absurd h (Except.noConfusion)
                next cs' hds =>
                  split at h
                  next e2 hrest => exact absurd h (Except.noConfusion)
                  next rest' hrest =>
                    obtain rfl : Node.folder t cs' :: rest' = cs := by cases h; rfl
                    have htstr : isStrB t = true := by
                      rcases hit : it with _ | b2 | n2 | s2 | xs2 | fs
                      all_goals rw [hit] at hsb
                      case null => exact absurd hsb (by simp [pySubscript])
                      case bool => exact absurd hsb (by simp [pySubscript])
                      case num => exact absurd hsb (by simp [pySubscript])
                      case str => exact absurd hsb (by simp [pySubscript])
                      case arr => exact absurd hsb (by simp [pySubscript])
                      case obj =>
                        rw [titleFieldOkB, Bool.and_eq_true] at hokit
                        obtain ⟨hok1, _⟩ := hokit
                        simp only [hit, titleOk1] at hok1
                        rcases hl : objLookup "title" fs with _ | t'
                        · simp only [pySubscript, hl] at hsb
                          exact absurd hsb (Except.noConfusion)
                        · simp only [pySubscript, hl] at hsb
                          obtain rfl : t' = t := by cases hsb; rfl
                          simp only [hl] at hok1
                          exact hok1
                    have hcs' : titlesAreStringsL cs' = true :=
                      ih k d cs' (fun p hp => hp) hds
                    have hrest' : titlesAreStringsL rest' = true :=
                      ih pid rest rest' hsubr hrest
                    simp [titlesAreStringsL, titlesAreStrings, htstr, hcs', hrest']
            next hct =>
              exact ih pid rest cs hsubr h
        · exact ih pid rest cs hsubr h

theorem convert_roots_titles (d : List (JSON × JSON)) (fuel : Nat)
    (hd : ∀ k it, (k, it) ∈ d → titleFieldOkB it = true) :
    ∀ (ps : List (String × JSON)) (bks : List Node),
      (∀ p ∈ ps, isStrB p.2 = true) → convert_roots d fuel ps = .ok bks →
      titlesAreStringsL bks = true := by
  intro ps
  induction ps with
  | nil =>
    intro bks _ h
    obtain rfl : ([] : List Node) = bks := by rw [convert_roots] at h; cases h; rfl
    rfl
  | cons p rest ih =>
    obtain ⟨sid, name⟩ := p
    intro bks hnm h
    rw [convert_roots] at h
    split at h
    next e heq => exact absurd h (Except.noConfusion)
    next cs heq =>
      split at h
      next e heq2 => exact absurd h (Except.noConfusion)
      next rest' heq2 =>
        obtain rfl : Node.folder name cs :: rest' = bks := by cases h; rfl
        have h1 : isStrB name = true := hnm (sid, name) (List.mem_cons_self _ _)
        have h2 : titlesAreStringsL cs = true :=
          recurseGo_titles d hd fuel (JSON.str sid) d cs (fun p hp => hp) heq
        have h3 : titlesAreStringsL rest' = true :=
          ih rest' (fun q hq => hnm q (List.mem_cons_of_mem _ hq)) heq2
        simp [titlesAreStringsL, titlesAreStrings, h1, h2, h3]

/-- C5 (amended): every node produced by `convert_to_bookmarks` has a string
title **provided** every present `title` and `savedTitle` field of the
items holds a string and every pinned space name is a string; folder nodes
take the item's `title` value verbatim and bookmark nodes fall back from a
falsy item title to the `savedTitle` *value* (defaulting to `""` only when
the key is absent), so a present-but-null `title` or `savedTitle` yields a
null node title, refuting the unconditional claim. -/
theorem convert_to_bookmarks_titles (fuel : Nat) (spaces : SpacesNames)
    (items : List JSON) (bks : List Node)
    (hitems : ∀ item ∈ items, titleFieldOkB item = true)
    (hnames : ∀ p ∈ spaces.pinned, isStrB p.2 = true)
    (h : convert_to_bookmarks fuel spaces items = .ok bks) :
    titlesAreStringsL bks = true := by
  rw [convert_to_bookmarks] at h
  split at h
  next e heq => exact absurd h (Except.noConfusion)
  next d heq =>
    have hd : ∀ k it, (k, it) ∈ d → titleFieldOkB it = true := by
      intro k it hmem
      rcases itemDictAux_mem items [] d heq (k, it) hmem with hin | hin
      · cases hin
      · exact hitems it hin
    exact convert_roots_titles d fuel hd spaces.pinned bks hnames h

/-- C5 (witness): the amended invariant applied to a concrete run. -/
theorem convert_to_bookmarks_titles_witness :
    titlesAreStringsL [Node.folder (JSON.str "S") [Node.folder (JSON.str "T") []]] = true :=
  convert_to_bookmarks_titles 5 ⟨[("c1", JSON.str "S")], []⟩
    [JSON.obj [("id", JSON.str "x"), ("parentID", JSON.str "c1"), ("title", JSON.str "T")]]
    [Node.folder (JSON.str "S") [Node.folder (JSON.str "T") []]]
    (by decide) (by decide) (by decide)

theorem isFolderB_iff (it : JSON) :
    isFolderB it = true ↔ bookmarkTest it = .ok false ∧ pyContainsB "title" it = .ok true := by
  simp [isFolderB]

theorem findFolderEntry_eq_some (d : List (JSON × JSON)) (v k it : JSON)
    (h : findFolderEntry d v = some (k, it)) :
    k = v ∧ isFolderB it = true ∧ (k, it) ∈ d := by
  have hmem : (k, it) ∈ d := List.mem_of_find?_eq_some h
  have hp := List.find?_some h
  simp only [Bool.and_eq_true, decide_eq_true_eq] at hp
  exact ⟨hp.1, hp.2, hmem⟩

theorem findFolderEntry_of_mem (d : List (JSON × JSON)) (k : JSON) (it : JSON)
    (hnd : (d.map Prod.fst).Nodup) (hmem : (k, it) ∈ d) (hf : isFolderB it = true) :
    findFolderEntry d k = some (k, it) := by
  induction d with
  | nil => cases hmem
  | cons e rest ih =>
    obtain ⟨k', it'⟩ := e
    simp only [List.map_cons, List.nodup_cons] at hnd
    rcases List.mem_cons.mp hmem with heq | hmem'
    · obtain ⟨rfl, rfl⟩ : k' = k ∧ it' = it := by cases heq; exact ⟨rfl, rfl⟩
      rw [findFolderEntry, List.find?_cons_of_pos]
      simp [hf]
    · have hne : k' ≠ k := by
        intro hk
        exact hnd.1 (by rw [hk]; exact List.mem_map_of_mem Prod.fst hmem')
      rw [findFolderEntry, List.find?_cons_of_neg]
      · exact ih hnd.2 hmem'
      · simp [hne]

theorem dictSetJ_keysNodup (dl : List (JSON × JSON)) (k v : JSON)
    (h : (dl.map Prod.fst).Nodup) : ((dictSetJ dl k v).map Prod.fst).Nodup := by
  induction dl with
  | nil => simp [dictSetJ]
  | cons e rest ih =>
    obtain ⟨k', v'⟩ := e
    simp only [List.map_cons, List.nodup_cons] at h
    rw [dictSetJ]
    by_cases hk : k' = k
    · rw [if_pos hk]
      simp only [List.map_cons, List.nodup_cons]
      exact ⟨h.1, h.2⟩
    · rw [if_neg hk]
      simp only [List.map_cons, List.nodup_cons]
      refine ⟨?_, ih h.2⟩
      intro hc
      rcases List.mem_map.mp hc with ⟨p, hp, hpk⟩
      rcases dictSetJ_mem rest k v p hp with hin | hin
      · exact h.1 (hpk ▸ List.mem_map_of_mem Prod.fst hin)
      · rw [hin] at hpk
        exact hk hpk.symm

theorem itemDictAux_keysNodup (items : List JSON) :
    ∀ (acc dd : List (JSON × JSON)), ((acc.map Prod.fst).Nodup) →
      itemDictAux acc items = .ok dd → ((dd.map Prod.fst).Nodup) := by
  induction items with
  | nil =>
    intro acc dd hacc h
    obtain rfl : acc = dd := by rw [itemDictAux] at h; cases h; rfl
    exact hacc
  | cons item rest ih =>
    intro acc dd hacc h
    cases item with
    | obj fs =>
      rcases hk : pySubscript (JSON.obj fs) "id" with e | kv
      · simp only [itemDictAux, hk] at h
        exact absurd h (Except.noConfusion)
      · cases kv with
        | arr xs =>
          simp only [itemDictAux, hk] at h
          exact absurd h (Except.noConfusion)
        | obj fs2 =>
          simp only [itemDictAux, hk] at h
          exact absurd h (Except.noConfusion)
        | null =>
          simp only [itemDictAux, hk] at h
          exact ih _ dd (dictSetJ_keysNodup acc _ _ hacc) h
        | bool b =>
          simp only [itemDictAux, hk] at h
          exact ih _ dd (dictSetJ_keysNodup acc _ _ hacc) h
        | num n =>
          simp only [itemDictAux, hk] at h
          exact ih _ dd (dictSetJ_keysNodup acc _ _ hacc) h
        | str s =>
          simp only [itemDictAux, hk] at h
          exact ih _ dd (dictSetJ_keysNodup acc _ _ hacc) h
    | null => simp only [itemDictAux] at h; exact ih _ dd hacc h
    | bool b => simp only [itemDictAux] at h; exact ih _ dd hacc h
    | num n => simp only [itemDictAux] at h; exact ih _ dd hacc h
    | str s => simp only [itemDictAux] at h; exact ih _ dd hacc h
    | arr xs => simp only [itemDictAux] at h; exact ih _ dd hacc h

theorem chain_head (d : List (JSON × JSON)) (fuel : Nat) (v : JSON) :
    v ∈ chainList d fuel v := by
  cases fuel with
  | zero => simp [chainList]
  | succ n => rw [chainList]; exact List.mem_cons_self _ _

theorem chainLast_mem (d : List (JSON × JSON)) :
    ∀ (fuel : Nat) (v : JSON), chainLast d fuel v ∈ chainList d fuel v := by
  intro fuel
  induction fuel with
  | zero => intro v; simp [chainList, chainLast]
  | succ n ih =>
    intro v
    rw [chainList, chainLast]
    rcases hf : findFolderEntry d v with _ | p
    · simp
    · exact List.mem_cons_of_mem _ (ih (parentVal p.2))

theorem chainGE (d : List (JSON × JSON)) (r : JSON → Nat) (hrank : RankedParents d r) :
    ∀ (fuel : Nat) (v w : JSON), w ∈ chainList d fuel v → r v ≤ r w := by
  intro fuel
  induction fuel with
  | zero =>
    intro v w hw
    simp only [chainList, List.mem_singleton] at hw
    rw [hw]
  | succ n ih =>
    intro v w hw
    rw [chainList] at hw
    rcases List.mem_cons.mp hw with rfl | hw'
    · exact le_refl _
    · rcases hf : findFolderEntry d v with _ | p
      · rw [hf] at hw'; cases hw'
      · rw [hf] at hw'
        obtain ⟨k, it⟩ := p
        obtain ⟨rfl, _, hmem⟩ := findFolderEntry_eq_some d v k it hf
        have h1 : r k < r (parentVal it) := hrank k it hmem
        exact le_trans (le_of_lt h1) (ih (parentVal (k, it).2) w hw')

theorem chainLast_of_none (d : List (JSON × JSON)) (fuel : Nat) (v : JSON)
    (h : findFolderEntry d v = none) : chainLast d fuel v = v := by
  cases fuel with
  | zero => rfl
  | succ n => rw [chainLast, h]

theorem chain_mem_none_eq_last (d : List (JSON × JSON)) :
    ∀ (fuel : Nat) (v w : JSON), w ∈ chainList d fuel v →
      findFolderEntry d w = none → w = chainLast d fuel v := by
  intro fuel
  induction fuel with
  | zero =>
    intro v w hw _
    simp only [chainList, List.mem_singleton] at hw
    rw [hw]; rfl
  | succ n ih =>
    intro v w hw hn
    rw [chainList] at hw
    rcases List.mem_cons.mp hw with rfl | hw'
    · exact (chainLast_of_none d (n + 1) w hn).symm
    · rcases hf : findFolderEntry d v with _ | p
      · rw [hf] at hw'; cases hw'
      · rw [hf] at hw'
        rw [chainLast, hf]
        exact ih (parentVal p.2) w hw' hn

theorem chain_parent_mem (d : List (JSON × JSON)) :
    ∀ (fuel : Nat) (v w kw itw : JSON), w ∈ chainList d fuel v →
      findFolderEntry d w = some (kw, itw) →
      findFolderEntry d (chainLast d fuel v) = none →
      parentVal itw ∈ chainList d fuel v := by
  intro fuel
  induction fuel with
  | zero =>
    intro v w kw itw hw hf hcomp
    simp only [chainList, List.mem_singleton] at hw
    subst hw
    rw [chainLast] at hcomp
    rw [hf] at hcomp
    cases hcomp
  | succ n ih =>
    intro v w kw itw hw hf hcomp
    rw [chainList] at hw ⊢
    rw [chainLast] at hcomp
    rcases hfv : findFolderEntry d v with _ | p
    · rw [hfv] at hw hcomp
      rcases List.mem_cons.mp hw with rfl | hw'
      · rw [hf] at hfv; cases hfv
      · cases hw'
    · rw [hfv] at hw hcomp
      rcases List.mem_cons.mp hw with rfl | hw'
      · have : p = (kw, itw) := by rw [hfv] at hf; cases hf; rfl
        rw [this]
        exact List.mem_cons_of_mem _ (chain_head d n (parentVal itw))
      · exact List.mem_cons_of_mem _ (ih (parentVal p.2) w kw itw hw' hf hcomp)

theorem chain_pred (d : List (JSON × JSON)) :
    ∀ (fuel : Nat) (v pid : JSON), pid ∈ chainList d fuel v → pid ≠ v →
      ∃ k itk, findFolderEntry d k = some (k, itk) ∧ parentVal itk = pid ∧
        k ∈ chainList d fuel v := by
  intro fuel
  induction fuel with
  | zero =>
    intro v pid hw hne
    simp only [chainList, List.mem_singleton] at hw
    exact absurd hw hne
  | succ n ih =>
    intro v pid hw hne
    rw [chainList] at hw
    rcases List.mem_cons.mp hw with rfl | hw'
    · exact absurd rfl hne
    · rcases hfv : findFolderEntry d v with _ | p
      · rw [hfv] at hw'; cases hw'
      · rw [hfv] at hw'
        obtain ⟨k0, it0⟩ := p
        have hk0 : k0 = v := (findFolderEntry_eq_some d v k0 it0 hfv).1
        by_cases hpp : pid = parentVal it0
        · refine ⟨v, it0, ?_, hpp.symm, chain_head d (n + 1) v⟩
          rw [← hk0] at hfv ⊢
          exact hfv
        · obtain ⟨k, itk, h1, h2, h3⟩ := ih (parentVal (k0, it0).2) pid hw' hpp
          refine ⟨k, itk, h1, h2, ?_⟩
          rw [chainList, hfv]
          exact List.mem_cons_of_mem _ h3

theorem chain_uniq_parent (d : List (JSON × JSON)) (r : JSON → Nat)
    (hrank : RankedParents d r) :
    ∀ (fuel : Nat) (v k1 it1 k2 it2 : JSON),
      k1 ∈ chainList d fuel v → k2 ∈ chainList d fuel v →
      findFolderEntry d k1 = some (k1, it1) → findFolderEntry d k2 = some (k2, it2) →
      parentVal it1 = parentVal it2 → k1 = k2 := by
  intro fuel
  induction fuel with
  | zero =>
    intro v k1 it1 k2 it2 h1 h2 _ _ _
    simp only [chainList, List.mem_singleton] at h1 h2
    rw [h1, h2]
  | succ n ih =>
    intro v k1 it1 k2 it2 h1 h2 hf1 hf2 hpp
    rw [chainList] at h1 h2
    rcases hfv : findFolderEntry d v with _ | p
    · rw [hfv] at h1 h2
      rcases List.mem_cons.mp h1 with rfl | h1'
      · rcases List.mem_cons.mp h2 with rfl | h2'
        · rfl
        · cases h2'
      · cases h1'
    · rw [hfv] at h1 h2
      obtain ⟨kv, itv⟩ := p
      have hkv : kv = v := (findFolderEntry_eq_some d v kv itv hfv).1
      rcases List.mem_cons.mp h1 with rfl | h1'
      · rcases List.mem_cons.mp h2 with rfl | h2'
        · rfl
        · -- k1 = v, k2 in tail: contradiction via ranks
          have hit1 : itv = it1 := by
            rw [hkv] at hfv
            rw [hfv] at hf1
            cases hf1
            rfl
          have hge : r (parentVal itv) ≤ r k2 :=
            chainGE d r hrank n (parentVal (kv, itv).2) k2 h2'
          have hmem2 : (k2, it2) ∈ d := (findFolderEntry_eq_some d k2 k2 it2 hf2).2.2
          have hlt : r k2 < r (parentVal it2) := hrank k2 it2 hmem2
          rw [← hpp, ← hit1] at hlt
          exact absurd (lt_of_le_of_lt hge hlt) (lt_irrefl _)
      · rcases List.mem_cons.mp h2 with rfl | h2'
        · have hit2 : itv = it2 := by
            rw [hkv] at hfv
            rw [hfv] at hf2
            cases hf2
            rfl
          have hge : r (parentVal itv) ≤ r k1 :=
            chainGE d r hrank n (parentVal (kv, itv).2) k1 h1'
          have hmem1 : (k1, it1) ∈ d := (findFolderEntry_eq_some d k1 k1 it1 hf1).2.2
          have hlt : r k1 < r (parentVal it1) := hrank k1 it1 hmem1
          rw [hpp, ← hit2] at hlt
          exact absurd (lt_of_le_of_lt hge hlt) (lt_irrefl _)
        · exact ih (parentVal (kv, itv).2) k1 it1 k2 it2 h1' h2' hf1 hf2 hpp

theorem filter_length_mono {α : Type} (p q : α → Bool) :
    ∀ (l : List α), (∀ x ∈ l, p x = true → q x = true) →
      (l.filter p).length ≤ (l.filter q).length := by
  intro l
  induction l with
  | nil => intro _; simp
  | cons x rest ih =>
    intro himp
    have ih' := ih (fun y hy => himp y (List.mem_cons_of_mem _ hy))
    by_cases hp : p x = true
    · have hq := himp x (List.mem_cons_self _ _) hp
      rw [List.filter_cons_of_pos hp, List.filter_cons_of_pos hq]
      simpa using ih'
    · rw [List.filter_cons_of_neg hp]
      by_cases hq : q x = true
      · rw [List.filter_cons_of_pos hq]
        exact le_trans ih' (by simp)
      · rw [List.filter_cons_of_neg hq]
        exact ih'

theorem filter_length_lt {α : Type} (p q : α → Bool) :
    ∀ (l : List α), (∀ x ∈ l, p x = true → q x = true) →
      ∀ e, e ∈ l → q e = true → p e = false →
      (l.filter p).length < (l.filter q).length := by
  intro l
  induction l with
  | nil => intro _ e he; cases he
  | cons x rest ih =>
    intro himp e he hq hp
    have himpr : ∀ y ∈ rest, p y = true → q y = true :=
      fun y hy => himp y (List.mem_cons_of_mem _ hy)
    rcases List.mem_cons.mp he with rfl | he'
    · rw [List.filter_cons_of_neg (by rw [hp]; exact Bool.false_ne_true),
        List.filter_cons_of_pos hq]
      have hm := filter_length_mono p q rest himpr
      simp only [List.length_cons]
      omega
    · by_cases hpx : p x = true
      · have hqx := himp x (List.mem_cons_self _ _) hpx
        rw [List.filter_cons_of_pos hpx, List.filter_cons_of_pos hqx]
        simpa using ih himpr e he' hq hp
      · rw [List.filter_cons_of_neg hpx]
        by_cases hqx : q x = true
        · rw [List.filter_cons_of_pos hqx]
          exact lt_trans (ih himpr e he' hq hp) (by simp)
        · rw [List.filter_cons_of_neg hqx]
          exact ih himpr e he' hq hp

theorem chain_completes (d : List (JSON × JSON)) (r : JSON → Nat)
    (hrank : RankedParents d r) :
    ∀ (fuel : Nat) (v : JSON),
      (d.filter (fun pr => decide (r v < r pr.1))).length < fuel →
      findFolderEntry d (chainLast d fuel v) = none := by
  intro fuel
  induction fuel with
  | zero => intro v h; omega
  | succ n ih =>
    intro v h
    rcases hfv : findFolderEntry d v with _ | p
    · rw [chainLast, hfv]
      exact hfv
    · obtain ⟨kv, itv⟩ := p
      simp only [chainLast, hfv]
      have hkv : kv = v := (findFolderEntry_eq_some d v kv itv hfv).1
      have hmemv : (kv, itv) ∈ d := (findFolderEntry_eq_some d v kv itv hfv).2.2
      have hvlt : r v < r (parentVal itv) := by
        have := hrank kv itv hmemv
        rw [hkv] at this
        exact this
      rcases hfn : findFolderEntry d (parentVal itv) with _ | p2
      · rw [chainLast_of_none d n (parentVal itv) hfn]
        exact hfn
      · obtain ⟨k2, it2⟩ := p2
        have hk2 : k2 = parentVal itv := (findFolderEntry_eq_some d _ k2 it2 hfn).1
        have hmem2 : (k2, it2) ∈ d := (findFolderEntry_eq_some d _ k2 it2 hfn).2.2
        have hdec : (d.filter (fun pr => decide (r (parentVal itv) < r pr.1))).length <
            (d.filter (fun pr => decide (r v < r pr.1))).length := by
          apply filter_length_lt _ _ d
          · intro x _ hx
            simp only [decide_eq_true_eq] at hx ⊢
            exact lt_trans hvlt hx
          · exact hmem2
          · simp only [decide_eq_true_eq]
            rw [hk2]
            exact hvlt
          · simp only [decide_eq_false_iff_not, not_lt]
            rw [hk2]
        exact ih (parentVal itv) (by omega)

theorem countP_eq_one_of_unique {α : Type} (p : α → Bool) :
    ∀ (l : List α), l.Nodup → ∀ e, e ∈ l → p e = true →
      (∀ a ∈ l, p a = true → a = e) → l.countP p = 1 := by
  intro l
  induction l with
  | nil => intro _ e he; cases he
  | cons x rest ih =>
    intro hnd e he hp huniq
    rw [List.countP_cons]
    rcases List.mem_cons.mp he with rfl | he'
    · have h0 : rest.countP p = 0 := by
        rw [List.countP_eq_zero]
        intro a ha hpa
        have hae : a = e := huniq a (List.mem_cons_of_mem _ ha) hpa
        rw [hae] at ha
        exact (List.nodup_cons.mp hnd).1 ha
      rw [h0, hp]
      rfl
    · have hx : p x = false := by
        rcases hb : p x with _ | _
        · rfl
        · have hxe : x = e := huniq x (List.mem_cons_self _ _) hb
          rw [hxe] at hnd
          exact absurd he' (List.nodup_cons.mp hnd).1
      rw [ih (List.nodup_cons.mp hnd).2 e he' hp
        (fun a ha hpa => huniq a (List.mem_cons_of_mem _ ha) hpa), hx]
      rfl

theorem keysNodup_value_eq (d : List (JSON × JSON)) (hnodup : (d.map Prod.fst).Nodup) :
    ∀ (k a b : JSON), (k, a) ∈ d → (k, b) ∈ d → a = b := by
  induction d with
  | nil => intro k a b ha; cases ha
  | cons e rest ih =>
    obtain ⟨k', v'⟩ := e
    simp only [List.map_cons, List.nodup_cons] at hnodup
    intro k a b ha hb
    rcases List.mem_cons.mp ha with h1 | h1
    · obtain ⟨rfl, rfl⟩ : k' = k ∧ v' = a := by cases h1; exact ⟨rfl, rfl⟩
      rcases List.mem_cons.mp hb with h2 | h2
      · obtain ⟨rfl⟩ : v' = b := by cases h2; rfl
        rfl
      · exact absurd (List.mem_map_of_mem Prod.fst h2) hnodup.1
    · rcases List.mem_cons.mp hb with h2 | h2
      · obtain ⟨rfl, rfl⟩ : k' = k ∧ v' = b := by cases h2; exact ⟨rfl, rfl⟩
        exact absurd (List.mem_map_of_mem Prod.fst h1) hnodup.1
      · exact ih hnodup.2 k a b h1 h2

/-- The central combinatorial fact: summed over the whole `item_dict`, the
direct contribution (`pid` is the parent of the distinguished bookmark) plus
the contributions of folder entries whose key lies on the ancestor chain
equals the chain-membership indicator of `pid`. -/
theorem chain_char (d : List (JSON × JSON)) (r : JSON → Nat)
    (hrank : RankedParents d r) (hnodup : (d.map Prod.fst).Nodup)
    (p0 pid : JSON) :
    ((if pid = p0 then 1 else 0) +
      d.countP (fun p => isFolderB p.2 && decide (parentVal p.2 = pid) &&
        decide (p.1 ∈ chainList d (d.length + 1) p0))) =
    (if pid ∈ chainList d (d.length + 1) p0 then 1 else 0) := by
  have hcomp : findFolderEntry d (chainLast d (d.length + 1) p0) = none := by
    apply chain_completes d r hrank
    exact Nat.lt_succ_of_le (List.length_filter_le _ d)
  by_cases hmem : pid ∈ chainList d (d.length + 1) p0
  · rw [if_pos hmem]
    by_cases hpp : pid = p0
    · rw [if_pos hpp]
      have hcount : d.countP (fun p => isFolderB p.2 && decide (parentVal p.2 = pid) &&
          decide (p.1 ∈ chainList d (d.length + 1) p0)) = 0 := by
        rw [List.countP_eq_zero]
        intro a ha hpa
        simp only [Bool.and_eq_true, decide_eq_true_eq] at hpa
        obtain ⟨⟨hfol, hpar⟩, hchain⟩ := hpa
        have hge : r p0 ≤ r a.1 := chainGE d r hrank _ p0 a.1 hchain
        have hlt : r a.1 < r (parentVal a.2) := by
          refine hrank a.1 a.2 ?_
          rw [Prod.mk.eta]
          exact ha
        rw [hpar, hpp] at hlt
        omega
      rw [hcount]
    · rw [if_neg hpp]
      obtain ⟨k0, it0, hf0, hp0, hk0chain⟩ := chain_pred d _ p0 pid hmem hpp
      have he0mem : (k0, it0) ∈ d := (findFolderEntry_eq_some d k0 k0 it0 hf0).2.2
      have hfol0 : isFolderB it0 = true := (findFolderEntry_eq_some d k0 k0 it0 hf0).2.1
      have hcount : d.countP (fun p => isFolderB p.2 && decide (parentVal p.2 = pid) &&
          decide (p.1 ∈ chainList d (d.length + 1) p0)) = 1 := by
        apply countP_eq_one_of_unique _ d (List.Nodup.of_map Prod.fst hnodup) (k0, it0) he0mem
        · simp [hfol0, hp0, hk0chain]
        · intro a ha hpa
          simp only [Bool.and_eq_true, decide_eq_true_eq] at hpa
          obtain ⟨⟨hfola, hpara⟩, hchaina⟩ := hpa
          have hamem : (a.1, a.2) ∈ d := by rw [Prod.mk.eta]; exact ha
          have hfa : findFolderEntry d a.1 = some (a.1, a.2) :=
            findFolderEntry_of_mem d a.1 a.2 hnodup hamem hfola
          have hk : a.1 = k0 :=
            chain_uniq_parent d r hrank _ p0 a.1 a.2 k0 it0 hchaina hk0chain hfa hf0
              (by rw [hpara, hp0])
          have hv : a.2 = it0 := by
            apply keysNodup_value_eq d hnodup k0 a.2 it0
            · rw [← hk]; exact hamem
            · exact he0mem
          rw [← hk, ← hv, Prod.mk.eta]
      rw [hcount]
  · rw [if_neg hmem]
    have h1 : pid ≠ p0 := by
      intro hpp
      rw [hpp] at hmem
      exact hmem (chain_head d _ p0)
    rw [if_neg h1]
    have hcount : d.countP (fun p => isFolderB p.2 && decide (parentVal p.2 = pid) &&
        decide (p.1 ∈ chainList d (d.length + 1) p0)) = 0 := by
      rw [List.countP_eq_zero]
      intro a ha hpa
      simp only [Bool.and_eq_true, decide_eq_true_eq] at hpa
      obtain ⟨⟨hfola, hpara⟩, hchaina⟩ := hpa
      have hamem : (a.1, a.2) ∈ d := by rw [Prod.mk.eta]; exact ha
      have hfa : findFolderEntry d a.1 = some (a.1, a.2) :=
        findFolderEntry_of_mem d a.1 a.2 hnodup hamem hfola
      have hparmem : parentVal a.2 ∈ chainList d (d.length + 1) p0 :=
        chain_parent_mem d _ p0 a.1 a.1 a.2 hchaina hfa hcomp
      rw [hpara] at hparmem
      exact hmem hparmem
    rw [hcount]

theorem bmNode_shape (it : JSON) (nd : Node) (h : bmNode it = .ok nd) :
    ∃ tt uu, nd = Node.bookmark tt uu := by
  rw [bmNode] at h
  split at h
  next e heq => exact absurd h (Except.noConfusion)
  next t0 heq =>
    split at h
    next e2 h2 => exact absurd h (Except.noConfusion)
    next title h2 =>
      split at h
      next e3 h3 => exact absurd h (Except.noConfusion)
      next tb h3 =>
        split at h
        next e4 h4 => exact absurd h (Except.noConfusion)
        next url h4 =>
          obtain rfl : Node.bookmark title url = nd := by cases h; rfl
          exact ⟨title, url, rfl⟩

theorem mem_cons_ne_iff {α : Type} (x a : α) (l : List α) (h : x ≠ a) :
    (x ∈ a :: l) ↔ x ∈ l := by
  rw [List.mem_cons]
  constructor
  · intro h2
    rcases h2 with h2 | h2
    · exact absurd h2 h
    · exact h2
  · intro h2
    exact Or.inr h2

/-- Counting lemma for the descent: with an acyclicity rank, duplicate-free
keys, and a unique item producing the bookmark node `(t, u)`, the number of
`(t, u)` bookmark nodes a successful scan emits is the direct-match
indicator plus one per scanned folder entry that lies on the distinguished
item's ancestor chain and whose `parentID` is the scanned parent. -/
theorem recurse_countTU (d : List (JSON × JSON)) (r : JSON → Nat)
    (hrank : RankedParents d r) (hnodup : (d.map Prod.fst).Nodup)
    (t u kx itx : JSON) (hx : (kx, itx) ∈ d)
    (hbt : bookmarkTest itx = .ok true)
    (hbm : bmNode itx = .ok (Node.bookmark t u))
    (huniq : ∀ k2 it2, (k2, it2) ∈ d → bookmarkTest it2 = .ok true →
      bmNode it2 = .ok (Node.bookmark t u) → k2 = kx ∧ it2 = itx) :
    ∀ (fuel : Nat) (pid : JSON) (es : List (JSON × JSON)) (cs : List Node),
      List.Sublist es d → recurseGo d fuel pid es = .ok cs →
      countTUL t u cs =
        (if pid = parentVal itx ∧ (kx, itx) ∈ es then 1 else 0) +
          es.countP (fun p => isFolderB p.2 && decide (parentVal p.2 = pid) &&
            decide (p.1 ∈ chainList d (d.length + 1) (parentVal itx))) := by
  intro fuel
  induction fuel with
  | zero =>
    intro pid es cs _ h
    exact absurd h (by simp [recurseGo])
  | succ f ih =>
    intro pid es cs hsub h
    cases es with
    | nil =>
      obtain rfl : ([] : List Node) = cs := by
        rw [recurseGo] at h; cases h; rfl
      simp [countTUL]
    | cons e rest =>
      obtain ⟨k, it⟩ := e
      have hsubr : List.Sublist rest d := List.sublist_of_cons_sublist hsub
      have hmemd : (k, it) ∈ d := List.Sublist.subset hsub (List.mem_cons_self _ _)
      have hndes : ((k, it) :: rest).Nodup :=
        List.Nodup.sublist hsub (List.Nodup.of_map Prod.fst hnodup)
      rw [recurseGo] at h
      split at h
      next e2 heq => exact absurd h (Except.noConfusion)
      next pv heq =>
        have hpv0 : parentVal it = pv := pyGet_ok_objGetD it "parentID" JSON.null pv heq
        split at h
        next hpv =>
          split at h
          next e2 hbtit => exact absurd h (Except.noConfusion)
          next hbtit =>
            split at h
            next e2 hbn => exact absurd h (Except.noConfusion)
            next nd hbn =>
              split at h
              next e2 hrest => exact absurd h (Except.noConfusion)
              next rest2 hrest =>
                obtain rfl : nd :: rest2 = cs := by cases h; rfl
                obtain ⟨tt, uu, rfl⟩ := bmNode_shape it nd hbn
                have hfol : isFolderB it = false := by
                  rw [isFolderB, hbtit]
                  rfl
                have hih := ih pid rest rest2 hsubr hrest
                have hcp : List.countP (fun p => isFolderB p.2 && decide (parentVal p.2 = pid) &&
                    decide (p.1 ∈ chainList d (d.length + 1) (parentVal itx))) ((k, it) :: rest) =
                    List.countP (fun p => isFolderB p.2 && decide (parentVal p.2 = pid) &&
                    decide (p.1 ∈ chainList d (d.length + 1) (parentVal itx))) rest := by
                  simp [List.countP_cons, hfol]
                by_cases htu : tt = t ∧ uu = u
                · obtain ⟨hkk, hkit⟩ : k = kx ∧ it = itx := by
                    apply huniq k it hmemd hbtit
                    rw [← htu.1, ← htu.2]
                    exact hbn
                  have hpid2 : pid = parentVal itx := by
                    rw [← hkit, hpv0]
                    exact hpv.symm
                  have hmemcons : (kx, itx) ∈ (k, it) :: rest := by
                    rw [← hkk, ← hkit]
                    exact List.mem_cons_self _ _
                  have hnotmem : (kx, itx) ∉ rest := by
                    rw [← hkk, ← hkit]
                    exact (List.nodup_cons.mp hndes).1
                  have h2 : (if pid = parentVal itx ∧ (kx, itx) ∈ (k, it) :: rest then 1 else 0) = 1 :=
                    if_pos ⟨hpid2, hmemcons⟩
                  have h3 : (if pid = parentVal itx ∧ (kx, itx) ∈ rest then 1 else 0) = 0 :=
                    if_neg (fun hc => hnotmem hc.2)
                  simp only [countTUL, countTU]
                  rw [if_pos htu, hih, hcp, h2, h3]
                  omega
                · have hne : (kx, itx) ≠ (k, it) := by
                    intro hc
                    injection hc with hc1 hc2
                    rw [hc2] at hbm
                    rw [hbn] at hbm
                    injection hbm with hbm2
                    injection hbm2 with hb1 hb2
                    exact htu ⟨hb1, hb2⟩
                  have h2 : (if pid = parentVal itx ∧ (kx, itx) ∈ (k, it) :: rest then 1 else 0) =
                      (if pid = parentVal itx ∧ (kx, itx) ∈ rest then 1 else 0) :=
                    if_congr (and_congr_right (fun _ => mem_cons_ne_iff _ _ _ hne)) rfl rfl
                  simp only [countTUL, countTU]
                  rw [if_neg htu, hih, hcp, h2]
                  omega
          next hbtit =>
            split at h
            next e2 hct => exact absurd h (Except.noConfusion)
            next hct =>
              split at h
              next e2 hsb => exact absurd h (Except.noConfusion)
              next tt hsb =>
                split at h
                next e2 hds => exact absurd h (Except.noConfusion)
                next cs2 hds =>
                  split at h
                  next e2 hrest => exact absurd h (Except.noConfusion)
                  next rest2 hrest =>
                    obtain rfl : Node.folder tt cs2 :: rest2 = cs := by cases h; rfl
                    have hfol : isFolderB it = true := by
                      rw [isFolderB, hbtit, hct]
                      decide
                    have hpideq : parentVal it = pid := by
                      rw [hpv0]
                      exact hpv
                    have hih2 := ih k d cs2 (List.Sublist.refl d) hds
                    have hxif : (if k = parentVal itx ∧ (kx, itx) ∈ d then 1 else 0) =
                        (if k = parentVal itx then 1 else 0) := by
                      by_cases hc : k = parentVal itx
                      · rw [if_pos ⟨hc, hx⟩, if_pos hc]
                      · rw [if_neg (fun hcc => hc hcc.1), if_neg hc]
                    have hcc := chain_char d r hrank hnodup (parentVal itx) k
                    have hcs2 : countTUL t u cs2 =
                        (if k ∈ chainList d (d.length + 1) (parentVal itx) then 1 else 0) := by
                      omega
                    have hih := ih pid rest rest2 hsubr hrest
                    have hne : (kx, itx) ≠ (k, it) := by
                      intro hc
                      injection hc with hc1 hc2
                      rw [hc2] at hbt
                      rw [hbtit] at hbt
                      exact absurd hbt (by decide)
                    have h2 : (if pid = parentVal itx ∧ (kx, itx) ∈ (k, it) :: rest then 1 else 0) =
                        (if pid = parentVal itx ∧ (kx, itx) ∈ rest then 1 else 0) :=
                      if_congr (and_congr_right (fun _ => mem_cons_ne_iff _ _ _ hne)) rfl rfl
                    have hcp : List.countP (fun p => isFolderB p.2 && decide (parentVal p.2 = pid) &&
                        decide (p.1 ∈ chainList d (d.length + 1) (parentVal itx))) ((k, it) :: rest) =
                        List.countP (fun p => isFolderB p.2 && decide (parentVal p.2 = pid) &&
                        decide (p.1 ∈ chainList d (d.length + 1) (parentVal itx))) rest +
                        (if k ∈ chainList d (d.length + 1) (parentVal itx) then 1 else 0) := by
                      rw [List.countP_cons]
                      simp [hfol, hpideq]
                    simp only [countTUL, countTU]
                    rw [hcs2, hih, hcp, h2]
                    omega
            next hct =>
              have hfol : isFolderB it = false := by
                rw [isFolderB, hbtit, hct]
                decide
              have hih := ih pid rest cs hsubr h
              have hne : (kx, itx) ≠ (k, it) := by
                intro hc
                injection hc with hc1 hc2
                rw [hc2] at hbt
                rw [hbtit] at hbt
                exact absurd hbt (by decide)
              have h2 : (if pid = parentVal itx ∧ (kx, itx) ∈ (k, it) :: rest then 1 else 0) =
                  (if pid = parentVal itx ∧ (kx, itx) ∈ rest then 1 else 0) :=
                if_congr (and_congr_right (fun _ => mem_cons_ne_iff _ _ _ hne)) rfl rfl
              have hcp : List.countP (fun p => isFolderB p.2 && decide (parentVal p.2 = pid) &&
                  decide (p.1 ∈ chainList d (d.length + 1) (parentVal itx))) ((k, it) :: rest) =
                  List.countP (fun p => isFolderB p.2 && decide (parentVal p.2 = pid) &&
                  decide (p.1 ∈ chainList d (d.length + 1) (parentVal itx))) rest := by
                simp [List.countP_cons, hfol]
              rw [hih, h2, hcp]
        next hpv =>
          have hih := ih pid rest cs hsubr h
          have hpar : decide (parentVal it = pid) = false := by
            rw [hpv0]
            exact decide_eq_false hpv
          have hcp : List.countP (fun p => isFolderB p.2 && decide (parentVal p.2 = pid) &&
              decide (p.1 ∈ chainList d (d.length + 1) (parentVal itx))) ((k, it) :: rest) =
              List.countP (fun p => isFolderB p.2 && decide (parentVal p.2 = pid) &&
              decide (p.1 ∈ chainList d (d.length + 1) (parentVal itx))) rest := by
            simp [List.countP_cons, hpar]
          have hiff : (pid = parentVal itx ∧ (kx, itx) ∈ (k, it) :: rest) ↔
              (pid = parentVal itx ∧ (kx, itx) ∈ rest) := by
            apply and_congr_right
            intro h1
            apply mem_cons_ne_iff
            intro hc
            injection hc with hc1 hc2
            rw [hc2] at h1
            rw [hpv0] at h1
            exact hpv h1.symm
          have h2 : (if pid = parentVal itx ∧ (kx, itx) ∈ (k, it) :: rest then 1 else 0) =
              (if pid = parentVal itx ∧ (kx, itx) ∈ rest then 1 else 0) :=
            if_congr hiff rfl rfl
          rw [hih, h2, hcp]

/-- Over the full `item_dict`, a successful scan from parent `pid` emits the
distinguished `(t, u)` bookmark exactly once when `pid` lies on the
distinguished item's ancestor chain, and never otherwise. -/
theorem recurse_full_countTU (d : List (JSON × JSON)) (r : JSON → Nat)
    (hrank : RankedParents d r) (hnodup : (d.map Prod.fst).Nodup)
    (t u kx itx : JSON) (hx : (kx, itx) ∈ d)
    (hbt : bookmarkTest itx = .ok true)
    (hbm : bmNode itx = .ok (Node.bookmark t u))
    (huniq : ∀ k2 it2, (k2, it2) ∈ d → bookmarkTest it2 = .ok true →
      bmNode it2 = .ok (Node.bookmark t u) → k2 = kx ∧ it2 = itx)
    (fuel : Nat) (pid : JSON) (cs : List Node)
    (h : recurseGo d fuel pid d = .ok cs) :
    countTUL t u cs = (if pid ∈ chainList d (d.length + 1) (parentVal itx) then 1 else 0) := by
  have h1 := recurse_countTU d r hrank hnodup t u kx itx hx hbt hbm huniq fuel pid d cs
    (List.Sublist.refl d) h
  have hxif : (if pid = parentVal itx ∧ (kx, itx) ∈ d then 1 else 0) =
      (if pid = parentVal itx then 1 else 0) := by
    by_cases hc : pid = parentVal itx
    · rw [if_pos ⟨hc, hx⟩, if_pos hc]
    · rw [if_neg (fun hcc => hc hcc.1), if_neg hc]
  have hcc := chain_char d r hrank hnodup (parentVal itx) pid
  omega

/-- Summed over the pinned-space roots: provided pinned ids are distinct and
none of them doubles as a folder-classified `item_dict` key, the tree holds
the distinguished `(t, u)` bookmark exactly once when the ancestor chain of
the distinguished item terminates at a pinned space id, and never
otherwise. -/
theorem convert_roots_countTU (d : List (JSON × JSON)) (r : JSON → Nat)
    (hrank : RankedParents d r) (hnodup : (d.map Prod.fst).Nodup)
    (t u kx itx : JSON) (hx : (kx, itx) ∈ d)
    (hbt : bookmarkTest itx = .ok true)
    (hbm : bmNode itx = .ok (Node.bookmark t u))
    (huniq : ∀ k2 it2, (k2, it2) ∈ d → bookmarkTest it2 = .ok true →
      bmNode it2 = .ok (Node.bookmark t u) → k2 = kx ∧ it2 = itx)
    (fuel : Nat) :
    ∀ (pin : List (String × JSON)) (roots : List Node),
      (pin.map (fun q => JSON.str q.1)).Nodup →
      (∀ q ∈ pin, findFolderEntry d (JSON.str q.1) = none) →
      convert_roots d fuel pin = .ok roots →
      countTUL t u roots =
        (if chainLast d (d.length + 1) (parentVal itx) ∈ pin.map (fun q => JSON.str q.1)
         then 1 else 0) := by
  intro pin
  induction pin with
  | nil =>
    intro roots _ _ h
    obtain rfl : ([] : List Node) = roots := by rw [convert_roots] at h; cases h; rfl
    simp [countTUL]
  | cons q rest ih =>
    obtain ⟨sid, name⟩ := q
    intro roots hnd hna h
    rw [convert_roots] at h
    split at h
    next e heq => exact absurd h (Except.noConfusion)
    next cs heq =>
      split at h
      next e2 heq2 => exact absurd h (Except.noConfusion)
      next rest2 heq2 =>
        obtain rfl : Node.folder name cs :: rest2 = roots := by cases h; rfl
        rw [recurse_into_children] at heq
        have hcs : countTUL t u cs =
            (if JSON.str sid ∈ chainList d (d.length + 1) (parentVal itx) then 1 else 0) :=
          recurse_full_countTU d r hrank hnodup t u kx itx hx hbt hbm huniq fuel
            (JSON.str sid) cs heq
        have hone : (if JSON.str sid ∈ chainList d (d.length + 1) (parentVal itx) then 1 else 0) =
            (if chainLast d (d.length + 1) (parentVal itx) = JSON.str sid then 1 else 0) := by
          by_cases hc : JSON.str sid ∈ chainList d (d.length + 1) (parentVal itx)
          · have hlast : JSON.str sid = chainLast d (d.length + 1) (parentVal itx) :=
              chain_mem_none_eq_last d _ _ _ hc (hna (sid, name) (List.mem_cons_self _ _))
            rw [if_pos hc, if_pos hlast.symm]
          · rw [if_neg hc]
            rw [if_neg]
            intro hcc
            apply hc
            rw [← hcc]
            exact chainLast_mem d _ _
        simp only [List.map_cons] at hnd ⊢
        obtain ⟨hhd, hndr⟩ := List.nodup_cons.mp hnd
        have hnar : ∀ q2 ∈ rest, findFolderEntry d (JSON.str q2.1) = none :=
          fun q2 hq2 => hna q2 (List.mem_cons_of_mem _ hq2)
        have hih := ih rest2 hndr hnar heq2
        have hsplit : countTUL t u (Node.folder name cs :: rest2) =
            countTUL t u cs + countTUL t u rest2 := by
          simp [countTUL, countTU]
        rw [hsplit, hcs, hih, hone]
        by_cases hc : chainLast d (d.length + 1) (parentVal itx) = JSON.str sid
        · have hnr : chainLast d (d.length + 1) (parentVal itx) ∉
              List.map (fun q2 => JSON.str q2.1) rest := by
            rw [hc]; exact hhd
          rw [if_pos hc, if_neg hnr, if_pos (List.mem_cons.mpr (Or.inl hc))]
        · rw [if_neg hc, if_congr (mem_cons_ne_iff _ _ _ hc) rfl rfl]
          omega

theorem occursIn_append_left (needle h x : String) (ho : occursIn needle h) :
    occursIn needle (h ++ x) := by
  obtain ⟨pre, post, hp⟩ := ho
  exact ⟨pre, post ++ x.data, by rw [String.data_append, hp]; simp⟩

mutual

theorem traverseItem_acc (n : Node) : ∀ (s : String) (lv : Nat),
    ∃ e, (traverseItem n s lv).data = s.data ++ e := by
  match n with
  | .folder ttl cs =>
    intro s lv
    obtain ⟨e1, he1⟩ := traverse_dict_acc cs
      (s ++ "\n" ++ tabs lv ++ "<DT><H3>" ++ pyStr ttl ++ "</H3>" ++ "\n" ++ tabs lv ++ "<DL><p>")
      (lv + 1)
    refine ⟨("\n" ++ tabs lv ++ "<DT><H3>" ++ pyStr ttl ++ "</H3>" ++ "\n" ++ tabs lv ++
      "<DL><p>").data ++ e1 ++ ("\n" ++ tabs lv ++ "</DL><p>").data, ?_⟩
    simp only [traverseItem, String.data_append]
    rw [he1]
    simp [String.data_append, List.append_assoc]
  | .bookmark ttl url =>
    intro s lv
    refine ⟨("\n" ++ tabs lv ++ "<DT><A HREF=\"" ++ pyStr url ++ "\">" ++ pyStr ttl ++
      "</A>").data, ?_⟩
    simp only [traverseItem]
    simp [String.data_append]

theorem traverse_dict_acc (l : List Node) : ∀ (s : String) (lv : Nat),
    ∃ e, (traverse_dict l s lv).data = s.data ++ e := by
  match l with
  | [] =>
    intro s lv
    exact ⟨[], by simp [traverse_dict]⟩
  | n :: rest =>
    intro s lv
    obtain ⟨e1, he1⟩ := traverseItem_acc n s lv
    obtain ⟨e2, he2⟩ := traverse_dict_acc rest (traverseItem n s lv) lv
    refine ⟨e1 ++ e2, ?_⟩
    show (traverse_dict rest (traverseItem n s lv) lv).data = s.data ++ (e1 ++ e2)
    rw [he2, he1, List.append_assoc]

end

mutual

theorem countTU_pos_render (t u : JSON) (n : Node) : ∀ (s : String) (lv : Nat),
    1 ≤ countTU t u n → occursIn (anchorStr t u) (traverseItem n s lv) := by
  match n with
  | .folder ttl cs =>
    intro s lv hc
    have hc2 : 1 ≤ countTUL t u cs := by
      simp only [countTU] at hc
      exact hc
    have hocc := countTUL_pos_render t u cs
      (s ++ "\n" ++ tabs lv ++ "<DT><H3>" ++ pyStr ttl ++ "</H3>" ++ "\n" ++ tabs lv ++ "<DL><p>")
      (lv + 1) hc2
    obtain ⟨pre, post, hp⟩ := hocc
    refine ⟨pre, post ++ ("\n" ++ tabs lv ++ "</DL><p>").data, ?_⟩
    simp only [traverseItem, String.data_append]
    rw [hp]
    simp [String.data_append, List.append_assoc]
  | .bookmark ttl url =>
    intro s lv hc
    simp only [countTU] at hc
    by_cases htu : ttl = t ∧ url = u
    · obtain ⟨rfl, rfl⟩ := htu
      refine ⟨(s ++ "\n" ++ tabs lv).data, [], ?_⟩
      simp only [traverseItem, anchorStr]
      simp [String.data_append]
    · rw [if_neg htu] at hc
      omega

theorem countTUL_pos_render (t u : JSON) (l : List Node) : ∀ (s : String) (lv : Nat),
    1 ≤ countTUL t u l → occursIn (anchorStr t u) (traverse_dict l s lv) := by
  match l with
  | [] =>
    intro s lv hc
    simp only [countTUL] at hc
    omega
  | n :: rest =>
    intro s lv hc
    simp only [countTUL] at hc
    by_cases hn : 1 ≤ countTU t u n
    · have hocc := countTU_pos_render t u n s lv hn
      obtain ⟨e2, he2⟩ := traverse_dict_acc rest (traverseItem n s lv) lv
      obtain ⟨pre, post, hp⟩ := hocc
      refine ⟨pre, post ++ e2, ?_⟩
      show (traverse_dict rest (traverseItem n s lv) lv).data = _
      rw [he2, hp]
      simp
    · have hr : 1 ≤ countTUL t u rest := by omega
      have hocc := countTUL_pos_render t u rest (traverseItem n s lv) lv hr
      exact hocc

end

theorem countTUL_pos_html (t u : JSON) (l : List Node) (hc : 1 ≤ countTUL t u l) :
    occursIn (anchorStr t u) (convert_bookmarks_to_html l) := by
  rw [convert_bookmarks_to_html]
  exact occursIn_append_left _ _ _ (countTUL_pos_render t u l bookmarksPreamble 1 hc)

/-- C1 (corrected): round-trip multiplicity of a bookmark.  For an item of
the built `item_dict` that is classified as a bookmark and whose node is
`Node.bookmark t u`, under (i) an acyclicity rank for the `parentID`
relation, (ii) distinct pinned space ids none of which doubles as a
folder-classified `item_dict` key, and (iii) uniqueness of the item among
those producing a `(t, u)` bookmark node, the tree built by
`convert_to_bookmarks` holds exactly one `(t, u)` bookmark node when the
item's ancestor chain of folder entries terminates at a pinned space id,
and zero otherwise — NOT unconditionally exactly one as claimed; and
whenever the multiplicity is one, the rendered document contains the
anchor text `<DT><A HREF="u">t</A>` for it. -/
theorem bookmark_round_trip_multiplicity
    (d : List (JSON × JSON)) (r : JSON → Nat) (spaces : SpacesNames)
    (items : List JSON) (fuel : Nat) (t u kx itx : JSON) (bks : List Node)
    (hbuild : itemDictBuild items = .ok d)
    (hrank : RankedParents d r)
    (hpin : (spaces.pinned.map (fun q => JSON.str q.1)).Nodup)
    (hna : ∀ q ∈ spaces.pinned, findFolderEntry d (JSON.str q.1) = none)
    (hx : (kx, itx) ∈ d)
    (hbt : bookmarkTest itx = .ok true)
    (hbm : bmNode itx = .ok (Node.bookmark t u))
    (huniq : ∀ k2 it2, (k2, it2) ∈ d → bookmarkTest it2 = .ok true →
      bmNode it2 = .ok (Node.bookmark t u) → k2 = kx ∧ it2 = itx)
    (hrun : convert_to_bookmarks fuel spaces items = .ok bks) :
    countTUL t u bks =
      (if chainLast d (d.length + 1) (parentVal itx) ∈
        spaces.pinned.map (fun q => JSON.str q.1) then 1 else 0) ∧
    (countTUL t u bks = 1 →
      occursIn (anchorStr t u) (convert_bookmarks_to_html bks)) := by
  have hb2 : itemDictAux [] items = .ok d := by
    rw [itemDictBuild] at hbuild
    exact hbuild
  have hnodup : (d.map Prod.fst).Nodup :=
    itemDictAux_keysNodup items [] d (by simp) hb2
  have hroots : convert_roots d fuel spaces.pinned = .ok bks := by
    simp only [convert_to_bookmarks, hbuild] at hrun
    exact hrun
  constructor
  · exact convert_roots_countTU d r hrank hnodup t u kx itx hx hbt hbm huniq fuel
      spaces.pinned bks hpin hna hroots
  · intro h1
    exact countTUL_pos_html t u bks (by omega)

theorem bookmark_round_trip_multiplicity_witness :
    countTUL (JSON.str "T") (JSON.str "https://e.com") rtBks =
      (if chainLast rtDict (rtDict.length + 1) (parentVal rtItemB1) ∈
        rtSpaces.pinned.map (fun q => JSON.str q.1) then 1 else 0) ∧
    (countTUL (JSON.str "T") (JSON.str "https://e.com") rtBks = 1 →
      occursIn (anchorStr (JSON.str "T") (JSON.str "https://e.com"))
        (convert_bookmarks_to_html rtBks)) :=
  bookmark_round_trip_multiplicity rtDict rtRank rtSpaces rtItems 20
    (JSON.str "T") (JSON.str "https://e.com") (JSON.str "b1") rtItemB1 rtBks
    (by decide)
    (by
      intro k it hmem
      simp only [rtDict, List.mem_cons, List.not_mem_nil, or_false] at hmem
      rcases hmem with h | h
      · injection h with h1 h2
        subst h1
        subst h2
        decide
      · injection h with h1 h2
        subst h1
        subst h2
        decide)
    (by decide)
    (by
      intro q hq
      have hq2 : q = ("c1", JSON.str "Work") := by
        simpa [rtSpaces] using hq
      subst hq2
      decide)
    (by decide)
    (by decide)
    (by decide)
    (by
      intro k2 it2 hmem hbt2 hbm2
      simp only [rtDict, List.mem_cons, List.not_mem_nil, or_false] at hmem
      rcases hmem with h | h
      · injection h with h1 h2
        subst h2
        exact absurd hbt2 (by decide)
      · injection h with h1 h2
        subst h1
        subst h2
        exact ⟨rfl, rfl⟩)
    (by decide)

/-- C1 (counterexample to the claim as stated): in `rtCexDoc` the selected
container's flat item list holds an item classified as a bookmark (its
`data.tab` is present) with non-empty `savedURL` and `savedTitle`, whose
`parentID` names no pinned space and no folder item; the pipeline succeeds,
yet the rendered document contains zero anchors with that HREF and text,
not exactly one. -/
theorem bookmark_round_trip_counterexample :
    bookmarkTest rtCexOrphan = Except.ok true ∧
    objGetD (objGetD (objGetD rtCexOrphan "data" JSON.null) "tab" JSON.null)
      "savedTitle" JSON.null = JSON.str "Gone" ∧
    objGetD (objGetD (objGetD rtCexOrphan "data" JSON.null) "tab" JSON.null)
      "savedURL" JSON.null = JSON.str "https://gone.com" ∧
    bmNode rtCexOrphan = Except.ok (Node.bookmark (JSON.str "Gone") (JSON.str "https://gone.com")) ∧
    rtCexCount = Except.ok 0 := by
  decide
